import Mathlib

/-!
Verification development for the forexpros-wss repository (Rust).

The development shallowly embeds the two source files:
  src/data.rs  — the Snapshot data model, a custom u32-or-string serde field
                 deserializer, and Snapshot::from_str which extracts and parses
                 the doubly escaped inner JSON object of a wire frame;
  src/push.rs  — the websocket session orchestrator (handshake, subscribe and
                 identity frames, heartbeat task, inbound dispatch loop) and
                 the random stream URL generator.

Strings are modelled as lists of characters (all wire content is ASCII, so the
byte indices used by Rust's str::find and slicing coincide with character
indices).  Machine integers are Nat with explicit bounds or reductions modulo
2^32 / 2^64 where the code truncates.  Rust panics (expect / unwrap and
out-of-bounds slicing) are modelled as an explicit DecodeOutcome.panic result,
never conflated with a returned error value.  serde_json is modelled by an
executable JSON text parser and a faithful model of the derive-generated map
deserializer for the Snapshot struct (fields in declaration order, duplicate
field detection, unknown keys ignored, serde defaults).  JSON numbers are kept
syntactically (sign, integer digits, fraction digits, exponent): the f32 field
last_numeric is modelled by the exact decimal numeral on the wire, so binary
floating point rounding is outside the model.
-/

namespace Forexpros

/-- Backslash character, written by code point to keep wire text readable. -/
def bs : Char := Char.ofNat 92

/-- Double quote character. -/
def qt : Char := Char.ofNat 34

/-- Opening brace character. -/
def obr : Char := Char.ofNat 123

/-- Closing brace character. -/
def cbr : Char := Char.ofNat 125

/-- Model of Rust `str::find(pat)`: index of the first occurrence of `pat`
in the haystack, `none` when there is no occurrence.  An empty pattern is
found at index 0, as in Rust. -/
def findIdx (pat : List Char) : List Char → Option Nat
  | [] => if pat.isPrefixOf ([] : List Char) then some 0 else none
  | c :: t => if pat.isPrefixOf (c :: t) then some 0 else (findIdx pat t).map (· + 1)

/-- Model of Rust `str::contains(pat)`. -/
def containsSub (hay pat : String) : Bool := (findIdx pat.data hay.data).isSome

/-- Model of Rust `String::replace("\\\\\\", "")` from Snapshot::from_str:
remove every occurrence of three consecutive backslashes, scanning left to
right without overlap and continuing after each removed occurrence. -/
def remove3bs : List Char → List Char
  | b1 :: b2 :: b3 :: t =>
      if b1 = bs ∧ b2 = bs ∧ b3 = bs then remove3bs t
      else b1 :: remove3bs (b2 :: b3 :: t)
  | other => other

/-- Model of the Rust slice expression `&s[a..b]`: `none` models the panic on
an inverted or out-of-range slice, `some` is the selected substring. -/
def sliceE (s : List Char) (a b : Nat) : Option (List Char) :=
  if a ≤ b ∧ b ≤ s.length then some ((s.drop a).take (b - a)) else none

/-- JSON whitespace accepted by serde_json between tokens. -/
def isWsC (c : Char) : Bool := c = ' ' || c = Char.ofNat 9 || c = Char.ofNat 10 || c = Char.ofNat 13

/-- Drop leading JSON whitespace. -/
def skipWs : List Char → List Char
  | [] => []
  | c :: t => if isWsC c then skipWs t else c :: t

/-- Split a list into its leading run of decimal digits and the remainder. -/
def spanDigits : List Char → List Char × List Char
  | [] => ([], [])
  | c :: t =>
      if c.isDigit then
        let (d, r) := spanDigits t
        (c :: d, r)
      else ([], c :: t)

/-- A JSON number kept syntactically, as serde_json tokenizes it: optional
minus sign, integer digits, optional fraction digits, optional exponent with
sign.  Keeping the digits instead of a binary float makes the model exact. -/
structure JNum where
  neg : Bool
  ip : List Char
  fp : Option (List Char)
  ex : Option (Bool × List Char)
deriving DecidableEq

/-- JSON values as parsed by serde_json. -/
inductive Json where
  | null
  | jbool (b : Bool)
  | num (n : JNum)
  | str (s : List Char)
  | arr (xs : List Json)
  | obj (kvs : List (List Char × Json))

/-- Value of a mapped JSON escape character, `none` for an invalid escape. -/
def escChar (e : Char) : Option Char :=
  if e = qt then some qt
  else if e = bs then some bs
  else if e = '/' then some '/'
  else if e = 'b' then some (Char.ofNat 8)
  else if e = 'f' then some (Char.ofNat 12)
  else if e = 'n' then some (Char.ofNat 10)
  else if e = 'r' then some (Char.ofNat 13)
  else if e = 't' then some (Char.ofNat 9)
  else none

/-- Value of a hexadecimal digit character. -/
def hexVal (c : Char) : Option Nat :=
  if '0' ≤ c ∧ c ≤ '9' then some (c.toNat - 48)
  else if 'a' ≤ c ∧ c ≤ 'f' then some (c.toNat - 87)
  else if 'A' ≤ c ∧ c ≤ 'F' then some (c.toNat - 55)
  else none

/-- Decode one escape token after a backslash: the decoded character and the
remainder. -/
def escTok : List Char → Option (Char × List Char)
  | [] => none
  | e :: t2 =>
      if e = 'u' then
        match t2 with
        | h1 :: h2 :: h3 :: h4 :: t3 =>
            match hexVal h1, hexVal h2, hexVal h3, hexVal h4 with
            | some a, some b, some c2, some d =>
                some (Char.ofNat (((a * 16 + b) * 16 + c2) * 16 + d), t3)
            | _, _, _, _ => none
        | _ => none
      else (escChar e).map (fun ch => (ch, t2))

/-- Parse the body of a JSON string after its opening quote: the decoded
characters and the remainder after the closing quote.  Escapes are decoded;
unescaped control characters are rejected, as in serde_json.  (Surrogate
pairing of consecutive \u escapes is not modelled.)  Fuel-indexed; callers
pass the input length plus one, which always suffices since every step
consumes at least one character. -/
def pStrBody : Nat → List Char → Option (List Char × List Char)
  | 0, _ => none
  | _ + 1, [] => none
  | fuel + 1, c :: t =>
      if c = qt then some ([], t)
      else if c = bs then
        match escTok t with
        | none => none
        | some (ch, t2) =>
            match pStrBody fuel t2 with
            | some (s, r) => some (ch :: s, r)
            | none => none
      else if c.toNat < 32 then none
      else
        match pStrBody fuel t with
        | some (s, r) => some (c :: s, r)
        | none => none

/-- Parse an optional JSON fraction part. -/
def pFrac : List Char → Option (Option (List Char) × List Char)
  | [] => some (none, [])
  | c :: t =>
      if c = '.' then
        let (ds, r) := spanDigits t
        if ds = [] then none else some (some ds, r)
      else some (none, c :: t)

/-- Parse an optional JSON exponent part. -/
def pExp : List Char → Option (Option (Bool × List Char) × List Char)
  | [] => some (none, [])
  | c :: t =>
      if c = 'e' ∨ c = 'E' then
        let (sg, t2) : Bool × List Char :=
          match t with
          | [] => (false, [])
          | c2 :: u => if c2 = '-' then (true, u) else if c2 = '+' then (false, u) else (false, c2 :: u)
        let (ds, r) := spanDigits t2
        if ds = [] then none else some (some (sg, ds), r)
      else some (none, c :: t)

/-- Parse a JSON number token (serde_json grammar: no leading zeros, fraction
and exponent digits nonempty). -/
def pNum (cs : List Char) : Option (Json × List Char) :=
  let (neg, cs1) : Bool × List Char :=
    match cs with
    | [] => (false, [])
    | c :: t => if c = '-' then (true, t) else (false, c :: t)
  match spanDigits cs1 with
  | ([], _) => none
  | (ip, cs2) =>
      if 1 < ip.length ∧ ip.head? = some '0' then none
      else
        match pFrac cs2 with
        | none => none
        | some (fp, cs3) =>
            match pExp cs3 with
            | none => none
            | some (ex, cs4) => some (.num ⟨neg, ip, fp, ex⟩, cs4)

/-- Consume an expected literal. -/
def expectLit (lit : List Char) (cs : List Char) : Option (List Char) :=
  if lit.isPrefixOf cs then some (cs.drop lit.length) else none

/-- Recursive descent JSON value parser, fuel-indexed so that it is structural
and evaluates inside the kernel.  Objects and arrays parse their first entry
and then re-enter the parser on a re-opened remainder, which rejects trailing
commas exactly as serde_json does. -/
def pV : Nat → List Char → Option (Json × List Char)
  | 0, _ => none
  | fuel + 1, cs0 =>
      match skipWs cs0 with
      | [] => none
      | c :: rest =>
          if c = qt then
            match pStrBody (rest.length + 1) rest with
            | some (s, r) => some (.str s, r)
            | none => none
          else if c = obr then
            match skipWs rest with
            | [] => none
            | c2 :: r2 =>
                if c2 = cbr then some (.obj [], r2)
                else if c2 = qt then
                  match pStrBody (r2.length + 1) r2 with
                  | none => none
                  | some (k, r3) =>
                      match skipWs r3 with
                      | ':' :: r4 =>
                          match pV fuel r4 with
                          | none => none
                          | some (v, r5) =>
                              match skipWs r5 with
                              | ',' :: r6 =>
                                  match skipWs r6 with
                                  | [] => none
                                  | c7 :: r7 =>
                                      if c7 = qt then
                                        match pV fuel (obr :: c7 :: r7) with
                                        | some (.obj kvs, r8) => some (.obj ((k, v) :: kvs), r8)
                                        | _ => none
                                      else none
                              | c9 :: r9 => if c9 = cbr then some (.obj [(k, v)], r9) else none
                              | [] => none
                      | _ => none
                else none
          else if c = '[' then
            match skipWs rest with
            | [] => none
            | c2 :: r2 =>
                if c2 = ']' then some (.arr [], r2)
                else
                  match pV fuel (c2 :: r2) with
                  | none => none
                  | some (v, r3) =>
                      match skipWs r3 with
                      | ',' :: r4 =>
                          match skipWs r4 with
                          | [] => none
                          | c5 :: r5 =>
                              if c5 = ']' then none
                              else
                                match pV fuel ('[' :: c5 :: r5) with
                                | some (.arr vs, r6) => some (.arr (v :: vs), r6)
                                | _ => none
                      | c7 :: r7 => if c7 = ']' then some (.arr [v], r7) else none
                      | [] => none
          else if c = 't' then (expectLit ['r', 'u', 'e'] rest).map (fun r => (.jbool true, r))
          else if c = 'f' then (expectLit ['a', 'l', 's', 'e'] rest).map (fun r => (.jbool false, r))
          else if c = 'n' then (expectLit ['u', 'l', 'l'] rest).map (fun r => (.null, r))
          else if c = '-' ∨ c.isDigit then pNum (c :: rest)
          else none

/-- The body of pV after the leading whitespace has been skipped and the head
character split off, written out once so that rewriting can step through it. -/
def pVcore (f : Nat) (c : Char) (rest : List Char) : Option (Json × List Char) :=
  if c = qt then
    match pStrBody (rest.length + 1) rest with
    | some (s, r) => some (.str s, r)
    | none => none
  else if c = obr then
    match skipWs rest with
    | [] => none
    | c2 :: r2 =>
        if c2 = cbr then some (.obj [], r2)
        else if c2 = qt then
          match pStrBody (r2.length + 1) r2 with
          | none => none
          | some (k, r3) =>
              match skipWs r3 with
              | ':' :: r4 =>
                  match pV f r4 with
                  | none => none
                  | some (v, r5) =>
                      match skipWs r5 with
                      | ',' :: r6 =>
                          match skipWs r6 with
                          | [] => none
                          | c7 :: r7 =>
                              if c7 = qt then
                                match pV f (obr :: c7 :: r7) with
                                | some (.obj kvs, r8) => some (.obj ((k, v) :: kvs), r8)
                                | _ => none
                              else none
                      | c9 :: r9 => if c9 = cbr then some (.obj [(k, v)], r9) else none
                      | [] => none
              | _ => none
        else none
  else if c = '[' then
    match skipWs rest with
    | [] => none
    | c2 :: r2 =>
        if c2 = ']' then some (.arr [], r2)
        else
          match pV f (c2 :: r2) with
          | none => none
          | some (v, r3) =>
              match skipWs r3 with
              | ',' :: r4 =>
                  match skipWs r4 with
                  | [] => none
                  | c5 :: r5 =>
                      if c5 = ']' then none
                      else
                        match pV f ('[' :: c5 :: r5) with
                        | some (.arr vs, r6) => some (.arr (v :: vs), r6)
                        | _ => none
              | c7 :: r7 => if c7 = ']' then some (.arr [v], r7) else none
              | [] => none
  else if c = 't' then (expectLit ['r', 'u', 'e'] rest).map (fun r => (.jbool true, r))
  else if c = 'f' then (expectLit ['a', 'l', 's', 'e'] rest).map (fun r => (.jbool false, r))
  else if c = 'n' then (expectLit ['u', 'l', 'l'] rest).map (fun r => (.null, r))
  else if c = '-' ∨ c.isDigit then pNum (c :: rest)
  else none

/-- The object-entry body of pV after the opening brace and whitespace. -/
def pVobj (f : Nat) (c2 : Char) (r2 : List Char) : Option (Json × List Char) :=
  if c2 = cbr then some (.obj [], r2)
  else if c2 = qt then
    match pStrBody (r2.length + 1) r2 with
    | none => none
    | some (k, r3) =>
        match skipWs r3 with
        | ':' :: r4 =>
            match pV f r4 with
            | none => none
            | some (v, r5) =>
                match skipWs r5 with
                | ',' :: r6 =>
                    match skipWs r6 with
                    | [] => none
                    | c7 :: r7 =>
                        if c7 = qt then
                          match pV f (obr :: c7 :: r7) with
                          | some (.obj kvs, r8) => some (.obj ((k, v) :: kvs), r8)
                          | _ => none
                        else none
                | c9 :: r9 => if c9 = cbr then some (.obj [(k, v)], r9) else none
                | [] => none
        | _ => none
  else none

/-- Model of serde_json::from_str up to the value level: parse one JSON value
and require only trailing whitespace after it. -/
def parseJson (cs : List Char) : Option Json :=
  match pV (cs.length + 1) cs with
  | some (j, r) => if skipWs r = [] then some j else none
  | none => none

/-- Numeric value of a list of decimal digit characters. -/
def digsVal (ds : List Char) : Nat := ds.foldl (fun acc c => 10 * acc + (c.toNat - 48)) 0

/-- The u64 value of a JSON number when serde_json classifies it as a
nonnegative integer: no sign, no fraction, no exponent, value below 2^64.
Numbers outside this class reach an integer visitor as i64 or f64 calls. -/
def JNum.asU64 (n : JNum) : Option Nat :=
  if n.neg = false ∧ n.fp = none ∧ n.ex = none ∧ digsVal n.ip < 2 ^ 64 then some (digsVal n.ip)
  else none

/-- The Snapshot struct of src/data.rs.  String and Box of str fields are
Strings; f32 last_numeric is the exact decimal numeral from the wire; u32 and
u64 fields are Nat, bounded where decoding enforces it. -/
structure Snapshot where
  pid : String
  last_dir : Option String
  last_numeric : JNum
  last : String
  bid : String
  ask : String
  high : String
  low : String
  last_close : String
  pc : String
  pcp : String
  pc_col : String
  turnover : String
  turnover_numeric : Nat
  time : String
  timestamp : Nat
deriving DecidableEq

/-- Deserialization errors of the serde_json model.  badJson is a text syntax
error; invalidNumber is the custom error produced by the u32-or-string visitor
when a nonempty string fails to parse as a u32 (the spec's InvalidNumber). -/
inductive DeErr where
  | badJson
  | invalidType (expected : String)
  | missingField (name : String)
  | dupField (name : String)
  | invalidNumber (msg : String)
deriving DecidableEq

/-- Model of default_zero (src/data.rs), the serde default for
turnover_numeric. -/
def default_zero : Nat := 0

/-- Model of Rust u32::from_str as used by the visitor's visit_str: optional
plus sign, decimal digits, with the error messages Rust's ParseIntError
renders (the repository's test expects "invalid digit found in string"). -/
def parseU32 (s : List Char) : Except DeErr Nat :=
  if s = [] then .error (.invalidNumber "cannot parse integer from empty string")
  else
    let ds := match s with
      | [] => ([] : List Char)
      | c :: t => if c = '+' then t else c :: t
    if ds = [] ∨ ¬ ds.all (·.isDigit) then .error (.invalidNumber "invalid digit found in string")
    else if digsVal ds < 2 ^ 32 then .ok (digsVal ds)
    else .error (.invalidNumber "number too large to fit in target type")

/-- Model of deserialize_u32_or_string (src/data.rs).  A nonnegative integer
reaches visit_u64, which truncates with an `as u32` cast (value modulo 2^32);
a string reaches visit_str: empty gives default_zero, otherwise u32 parsing
whose failure is the custom InvalidNumber error; every other shape (negative
integer, float, null, bool, array, object) hits an unimplemented visitor
method and fails with serde's invalid type error. -/
def deserialize_u32_or_string : Json → Except DeErr Nat
  | .num n =>
      match n.asU64 with
      | some v => .ok (v % 2 ^ 32)
      | none => .error (.invalidType "u32 or string")
  | .str s => if s = [] then .ok default_zero else parseU32 s
  | _ => .error (.invalidType "u32 or string")

/-- Decode a required JSON string field. -/
def dStr : Json → Except DeErr (List Char)
  | .str s => .ok s
  | _ => .error (.invalidType "string")

/-- Decode an Option string field: null gives none, a string gives some. -/
def dOptStr : Json → Except DeErr (Option (List Char))
  | .null => .ok none
  | .str s => .ok (some s)
  | _ => .error (.invalidType "option string")

/-- Decode the f32 field: any JSON number is accepted, kept exactly. -/
def dNum : Json → Except DeErr JNum
  | .num n => .ok n
  | _ => .error (.invalidType "f32")

/-- Decode a u64 field: only a nonnegative integer below 2^64. -/
def dU64 : Json → Except DeErr Nat
  | .num n =>
      match n.asU64 with
      | some v => .ok v
      | none => .error (.invalidType "u64")
  | _ => .error (.invalidType "u64")

/-- Partial deserialization state of the derive-generated Snapshot visitor:
one slot per field, none while the key has not been seen. -/
structure PState where
  pid : Option (List Char) := none
  last_dir : Option (Option (List Char)) := none
  last_numeric : Option JNum := none
  last : Option (List Char) := none
  bid : Option (List Char) := none
  ask : Option (List Char) := none
  high : Option (List Char) := none
  low : Option (List Char) := none
  last_close : Option (List Char) := none
  pc : Option (List Char) := none
  pcp : Option (List Char) := none
  pc_col : Option (List Char) := none
  turnover : Option (List Char) := none
  turnover_numeric : Option Nat := none
  time : Option (List Char) := none
  timestamp : Option Nat := none

/-- One map entry of the derive-generated visitor: match the key against the
struct's field names, fail on a duplicate, decode the value with the field's
deserializer (deserialize_u32_or_string for turnover_numeric), ignore unknown
keys. -/
def stepEntry (st : PState) : List Char × Json → Except DeErr PState
  | (k, v) =>
  if k = "pid".data then
    if st.pid.isSome then .error (.dupField "pid")
    else (dStr v).map (fun x => { st with pid := some x })
  else if k = "last_dir".data then
    if st.last_dir.isSome then .error (.dupField "last_dir")
    else (dOptStr v).map (fun x => { st with last_dir := some x })
  else if k = "last_numeric".data then
    if st.last_numeric.isSome then .error (.dupField "last_numeric")
    else (dNum v).map (fun x => { st with last_numeric := some x })
  else if k = "last".data then
    if st.last.isSome then .error (.dupField "last")
    else (dStr v).map (fun x => { st with last := some x })
  else if k = "bid".data then
    if st.bid.isSome then .error (.dupField "bid")
    else (dStr v).map (fun x => { st with bid := some x })
  else if k = "ask".data then
    if st.ask.isSome then .error (.dupField "ask")
    else (dStr v).map (fun x => { st with ask := some x })
  else if k = "high".data then
    if st.high.isSome then .error (.dupField "high")
    else (dStr v).map (fun x => { st with high := some x })
  else if k = "low".data then
    if st.low.isSome then .error (.dupField "low")
    else (dStr v).map (fun x => { st with low := some x })
  else if k = "last_close".data then
    if st.last_close.isSome then .error (.dupField "last_close")
    else (dStr v).map (fun x => { st with last_close := some x })
  else if k = "pc".data then
    if st.pc.isSome then .error (.dupField "pc")
    else (dStr v).map (fun x => { st with pc := some x })
  else if k = "pcp".data then
    if st.pcp.isSome then .error (.dupField "pcp")
    else (dStr v).map (fun x => { st with pcp := some x })
  else if k = "pc_col".data then
    if st.pc_col.isSome then .error (.dupField "pc_col")
    else (dStr v).map (fun x => { st with pc_col := some x })
  else if k = "turnover".data then
    if st.turnover.isSome then .error (.dupField "turnover")
    else (dStr v).map (fun x => { st with turnover := some x })
  else if k = "turnover_numeric".data then
    if st.turnover_numeric.isSome then .error (.dupField "turnover_numeric")
    else (deserialize_u32_or_string v).map (fun x => { st with turnover_numeric := some x })
  else if k = "time".data then
    if st.time.isSome then .error (.dupField "time")
    else (dStr v).map (fun x => { st with time := some x })
  else if k = "timestamp".data then
    if st.timestamp.isSome then .error (.dupField "timestamp")
    else (dU64 v).map (fun x => { st with timestamp := some x })
  else .ok st

/-- End of the map: required fields must be present; last_dir defaults to
none, last_close and turnover to the empty string (serde default), and
turnover_numeric to default_zero. -/
def finalize (st : PState) : Except DeErr Snapshot :=
  match st.pid with
  | none => .error (.missingField "pid")
  | some pidV =>
  match st.last_numeric with
  | none => .error (.missingField "last_numeric")
  | some lnV =>
  match st.last with
  | none => .error (.missingField "last")
  | some lastV =>
  match st.bid with
  | none => .error (.missingField "bid")
  | some bidV =>
  match st.ask with
  | none => .error (.missingField "ask")
  | some askV =>
  match st.high with
  | none => .error (.missingField "high")
  | some highV =>
  match st.low with
  | none => .error (.missingField "low")
  | some lowV =>
  match st.pc with
  | none => .error (.missingField "pc")
  | some pcV =>
  match st.pcp with
  | none => .error (.missingField "pcp")
  | some pcpV =>
  match st.pc_col with
  | none => .error (.missingField "pc_col")
  | some pccV =>
  match st.time with
  | none => .error (.missingField "time")
  | some timeV =>
  match st.timestamp with
  | none => .error (.missingField "timestamp")
  | some tsV =>
      .ok {
        pid := String.mk pidV
        last_dir := (st.last_dir.getD none).map String.mk
        last_numeric := lnV
        last := String.mk lastV
        bid := String.mk bidV
        ask := String.mk askV
        high := String.mk highV
        low := String.mk lowV
        last_close := String.mk (st.last_close.getD [])
        pc := String.mk pcV
        pcp := String.mk pcpV
        pc_col := String.mk pccV
        turnover := String.mk (st.turnover.getD [])
        turnover_numeric := st.turnover_numeric.getD default_zero
        time := String.mk timeV
        timestamp := tsV }

/-- Deserialize a Snapshot from a JSON value, as the serde derive does from a
map: fold the entries in input order, then finalize. -/
def dSnapshot : Json → Except DeErr Snapshot
  | .obj kvs => (List.foldlM stepEntry {} kvs) >>= finalize
  | _ => .error (.invalidType "struct Snapshot")

/-- Model of serde_json::from_str::<Snapshot>: parse the text, then
deserialize the value. -/
def jsonDecodeSnapshot (cs : List Char) : Except DeErr Snapshot :=
  match parseJson cs with
  | none => .error .badJson
  | some j => dSnapshot j

/-- The ways Snapshot::from_str aborts: expect on a missing "::{" delimiter,
expect on a missing closing brace, the out-of-range slice panic, and the
unwrap on a serde_json error. -/
inductive PanicKind where
  | expectOpen
  | expectClose
  | sliceFail
  | serdeFail (e : DeErr)
deriving DecidableEq

/-- Result of running Snapshot::from_str: the function returns the Snapshot
directly and panics on every failure; it has no error-returning path. -/
inductive DecodeOutcome where
  | ok (s : Snapshot)
  | panic (k : PanicKind)
deriving DecidableEq

/-- The delimiter "::{" searched by Snapshot::from_str. -/
def delimP : List Char := [':', ':', obr]

/-- Model of Snapshot::from_str (src/data.rs): find the first "::{" in the
whole input, find the first "}" in the whole input (the search does not start
after the delimiter), slice from two characters past the delimiter start
(the position of the opening brace) through the closing brace inclusive,
remove every three-backslash occurrence, and parse with serde_json, panicking
on any failure. -/
def Snapshot.from_str (src : String) : DecodeOutcome :=
  match findIdx delimP src.data with
  | none => .panic .expectOpen
  | some i =>
      match findIdx [cbr] src.data with
      | none => .panic .expectClose
      | some j =>
          match sliceE src.data (i + 2) (j + 1) with
          | none => .panic .sliceFail
          | some sub =>
              match jsonDecodeSnapshot (remove3bs sub) with
              | .ok snap => .ok snap
              | .error e => .panic (.serdeFail e)

/-- Digit rendering in base b, fuel-indexed so it evaluates in the kernel;
digitChar gives lowercase hexadecimal, as Rust's x formatting does. -/
def natDigsAux (b : Nat) : Nat → Nat → List Char
  | 0, _ => []
  | f + 1, n => if n < b then [Nat.digitChar n] else natDigsAux b f (n / b) ++ [Nat.digitChar (n % b)]

/-- Decimal rendering of a Nat, as Rust Display for integers. -/
def printNat (n : Nat) : List Char := natDigsAux 10 (n + 1) n

/-- Lowercase hexadecimal rendering of a Nat, as Rust x formatting. -/
def hexDigs (n : Nat) : List Char := natDigsAux 16 (n + 1) n

/-- Print a JSON number back from its syntactic form. -/
def printJNum (n : JNum) : List Char :=
  (if n.neg then ['-'] else []) ++ n.ip
    ++ (match n.fp with
        | none => []
        | some ds => '.' :: ds)
    ++ (match n.ex with
        | none => []
        | some (sg, ds) => 'e' :: ((if sg then ['-'] else []) ++ ds))

/-- The printed fraction part of a JSON number. -/
def fpPart : Option (List Char) → List Char
  | none => []
  | some ds => '.' :: ds

/-- The printed exponent part of a JSON number. -/
def exPart : Option (Bool × List Char) → List Char
  | none => []
  | some (sg, ds) => 'e' :: ((if sg then ['-'] else []) ++ ds)

/-- The tail of the number parser after the sign has been split off: integer
part with the serde_json leading-zero rule, then fraction, then exponent. -/
def pNumTail (neg : Bool) (cs1 : List Char) : Option (Json × List Char) :=
  let p := spanDigits cs1
  if p.1 = [] then none
  else if 1 < p.1.length ∧ p.1.head? = some '0' then none
  else
    match pFrac p.2 with
    | none => none
    | some (fp, cs3) =>
        match pExp cs3 with
        | none => none
        | some (ex, cs4) => some (.num ⟨neg, p.1, fp, ex⟩, cs4)

/-- JSON string escaping as serde_json writes it. -/
def escJsonChar (c : Char) : List Char :=
  if c = qt then [bs, qt]
  else if c = bs then [bs, bs]
  else if c = Char.ofNat 10 then [bs, 'n']
  else if c = Char.ofNat 13 then [bs, 'r']
  else if c = Char.ofNat 9 then [bs, 't']
  else if c = Char.ofNat 8 then [bs, 'b']
  else if c = Char.ofNat 12 then [bs, 'f']
  else if c.toNat < 32 then [bs, 'u', '0', '0', Nat.digitChar (c.toNat / 16), Nat.digitChar (c.toNat % 16)]
  else [c]

/-- Print a JSON string literal with its quotes. -/
def printStr (s : List Char) : List Char := qt :: (s.map escJsonChar).flatten ++ [qt]

/-- Print a scalar JSON value.  The documented envelope's snapshot object is
flat, so the encoder below only ever prints null, bool, number and string
values; nested arrays and objects do not occur in it and print as empty. -/
def printSc : Json → List Char
  | .null => ['n', 'u', 'l', 'l']
  | .jbool b => if b then ['t', 'r', 'u', 'e'] else ['f', 'a', 'l', 's', 'e']
  | .num n => printJNum n
  | .str s => printStr s
  | .arr _ => []
  | .obj _ => []

/-- Print object entries separated by commas, compact as serde_json. -/
def printEntryList : List (List Char × Json) → List Char
  | [] => []
  | [(k, v)] => printStr k ++ ':' :: printSc v
  | (k, v) :: e2 :: t => printStr k ++ ':' :: printSc v ++ ',' :: printEntryList (e2 :: t)

/-- Print a flat JSON object, compact as serde_json. -/
def printObj (kvs : List (List Char × Json)) : List Char := obr :: printEntryList kvs ++ [cbr]

/-- The JSON object entries of a Snapshot, in struct declaration order, as
the serde Serialize derive writes them. -/
def snapEntries (s : Snapshot) : List (List Char × Json) :=
  [("pid".data, .str s.pid.data),
   ("last_dir".data, match s.last_dir with
     | none => .null
     | some v => .str v.data),
   ("last_numeric".data, .num s.last_numeric),
   ("last".data, .str s.last.data),
   ("bid".data, .str s.bid.data),
   ("ask".data, .str s.ask.data),
   ("high".data, .str s.high.data),
   ("low".data, .str s.low.data),
   ("last_close".data, .str s.last_close.data),
   ("pc".data, .str s.pc.data),
   ("pcp".data, .str s.pcp.data),
   ("pc_col".data, .str s.pc_col.data),
   ("turnover".data, .str s.turnover.data),
   ("turnover_numeric".data, .num ⟨false, printNat s.turnover_numeric, none, none⟩),
   ("time".data, .str s.time.data),
   ("timestamp".data, .num ⟨false, printNat s.timestamp, none, none⟩)]

/-- The inner snapshot JSON text of a Snapshot value. -/
def serializeSnap (s : Snapshot) : List Char := printObj (snapEntries s)

/-- One level of the envelope's backslash escaping: each quote of the inner
JSON text appears on the wire as three backslashes and a quote, exactly the
shape Snapshot::from_str strips with its three-backslash removal. -/
def esc3 : List Char → List Char
  | [] => []
  | c :: t => if c = qt then bs :: bs :: bs :: qt :: esc3 t else c :: esc3 t

/-- The fixed envelope text before the instrument id, from the documented
source example: a, bracket, quote, open brace, escaped quote, message,
escaped quote, colon, escaped quote, pid dash. -/
def envPre : List Char := "a[\"\x7b\\\"message\\\":\\\"pid-".data

/-- The fixed envelope text after the inner object. -/
def envSuf : List Char := [bs, qt, cbr, qt, ']']

/-- Modelled from the spec: the repository contains no encoder, only the
documented wire envelope shape (spec section 4.1 and the source example in
src/data.rs).  A Snapshot is encoded by serializing its JSON object, escaping
each quote with three backslashes, and wrapping it in the fixed envelope
around pid dash instrument id and the double colon delimiter. -/
def wireEncode (s : Snapshot) : String :=
  String.mk (envPre ++ s.pid.data ++ ':' :: ':' :: esc3 (serializeSnap s) ++ envSuf)

/-- Spec-side decoder following the words of claim C1: identical to
Snapshot.from_str except that the first closing brace is searched for after
the delimiter, not from the start of the whole input.  The slice keeps the
opening brace of the delimiter, which spec step 1 reads as
"subscription-id :: opening brace". -/
def decodeSpecC1 (src : String) : DecodeOutcome :=
  match findIdx delimP src.data with
  | none => .panic .expectOpen
  | some i =>
      match findIdx [cbr] (src.data.drop (i + 3)) with
      | none => .panic .expectClose
      | some j0 =>
          match sliceE src.data (i + 2) (i + 3 + j0 + 1) with
          | none => .panic .sliceFail
          | some sub =>
              match jsonDecodeSnapshot (remove3bs sub) with
              | .ok snap => .ok snap
              | .error e => .panic (.serdeFail e)

/-- Characters that cannot disturb the envelope: printable, not a quote, not
a backslash, not a closing brace. -/
def safeChar (c : Char) : Bool := decide (32 ≤ c.toNat) && c != qt && c != bs && c != cbr

/-- A string of safe characters. -/
def safeStr (s : List Char) : Bool := s.all safeChar

/-- Well-formed syntactic JSON number: what the parser can produce and the
printer reproduces verbatim (nonempty digit runs, no leading zero). -/
def wfJNum (n : JNum) : Bool :=
  !n.ip.isEmpty && n.ip.all (·.isDigit) && (n.ip.length ≤ 1 || n.ip.head? != some '0')
    && (match n.fp with
        | none => true
        | some ds => !ds.isEmpty && ds.all (·.isDigit))
    && (match n.ex with
        | none => true
        | some (_, ds) => !ds.isEmpty && ds.all (·.isDigit))

/-- Scalar JSON values the flat snapshot object can carry and the printer
reproduces: null, booleans, well-formed numbers and safe strings. -/
def wfVal : Json → Bool
  | .null => true
  | .jbool _ => true
  | .num n => wfJNum n
  | .str s => safeStr s
  | .arr _ => false
  | .obj _ => false

/-- Snapshot values whose encoding the envelope can carry: digit instrument
id, safe string fields, well-formed numeral, machine-integer bounds. -/
def wfSnapshot (s : Snapshot) : Bool :=
  !s.pid.data.isEmpty && s.pid.data.all (·.isDigit)
    && (match s.last_dir with
        | none => true
        | some v => safeStr v.data)
    && wfJNum s.last_numeric
    && safeStr s.last.data && safeStr s.bid.data && safeStr s.ask.data
    && safeStr s.high.data && safeStr s.low.data && safeStr s.last_close.data
    && safeStr s.pc.data && safeStr s.pcp.data && safeStr s.pc_col.data
    && safeStr s.turnover.data && decide (s.turnover_numeric < 2 ^ 32)
    && safeStr s.time.data && decide (s.timestamp < 2 ^ 64)

/-- The snapshot of the repository's own source example (src/data.rs). -/
def canonSnap : Snapshot :=
  { pid := "945629"
    last_dir := some "redBg"
    last_numeric := ⟨false, ['1', '8', '9', '5', '1'], some ['2'], none⟩
    last := "18,951.2"
    bid := "18,954.0"
    ask := "18,956.0"
    high := "19,956.0"
    low := "18,279.0"
    last_close := "19,188.0"
    pc := "-236.8"
    pcp := "-1.23%"
    pc_col := "redFont"
    turnover := "21.50K"
    turnover_numeric := 21503
    time := "19:21:50"
    timestamp := 1606850510 }

/-- A snapshot whose bid field holds a lone closing brace: its encoding is a
well-formed envelope, but the brace lands before the object's own closing
brace and derails the slice. -/
def cexC4 : Snapshot := { canonSnap with bid := "\x7d" }

/-- Drop every entry with the given key from an object entry list. -/
def dropKey (k : List Char) (kvs : List (List Char × Json)) : List (List Char × Json) :=
  kvs.filter (fun kv => kv.1 != k)

/-- The canonical object with the turnover_numeric entry replaced. -/
def withTN (v : Json) : List (List Char × Json) :=
  dropKey "turnover_numeric".data (snapEntries canonSnap) ++ [("turnover_numeric".data, v)]

/-- A minimal snapshot JSON text with only the required fields. -/
def minJson : String :=
  "\x7b\"pid\":\"1\",\"last_numeric\":1,\"last\":\"a\",\"bid\":\"a\",\"ask\":\"a\",\"high\":\"a\",\"low\":\"a\",\"pc\":\"a\",\"pcp\":\"a\",\"pc_col\":\"a\",\"time\":\"a\",\"timestamp\":1\x7d"

/-- The snapshot minJson decodes to: defaulted fields empty or zero. -/
def minSnap : Snapshot :=
  ⟨"1", none, ⟨false, ['1'], none, none⟩, "a", "a", "a", "a", "a", "", "a", "a", "a", "", 0, "a", 1⟩

/-- Raw input whose first closing brace precedes the delimiter while a
well-formed object follows it. -/
def cexC1 : String := "\x7d::" ++ minJson

/-- The subscription key "pid-<id>::{" built by Stream::new (src/push.rs). -/
def subKey (pairId : String) : String := "pid-" ++ pairId ++ "::\x7b"

/-- The bulk-subscribe frame sent by Stream::new, with its fixed region tag. -/
def subscribeFrame (pairId : String) : String :=
  "[\"\x7b\\\"_event\\\":\\\"bulk-subscribe\\\",\\\"tzID\\\":\\\"8\\\",\\\"message\\\":\\\"pid-"
    ++ pairId ++ ":\\\"\x7d\"]"

/-- The identity frame sent by Stream::new. -/
def identFrame : String := "[\"\x7b\\\"_event\\\":\\\"UID\\\",\\\"UID\\\":0\x7d\"]"

/-- The heartbeat frame the keep-alive task sends. -/
def hbFrame : String := "[\"\x7b\\\"_event\\\":\\\"heartbeat\\\",\\\"data\\\":\\\"h\\\"\x7d\"]"

/-- The heartbeat period of src/push.rs, in milliseconds. -/
def hbPeriodMs : Nat := 3200

namespace Stream

/-- Terminal session reasons.  handshakeFailed is the Err of the first-frame
check; decodeFail carries the panic of Snapshot::from_str on a matching
frame; endOfStream is the clean end of the inbound stream (the EOD branch). -/
inductive Reason where
  | handshakeFailed
  | decodeFail (k : PanicKind)
  | endOfStream
deriving DecidableEq

/-- Session phases of the async block of Stream::new, in program order. -/
inductive Phase where
  | start
  | opened
  | subSent
  | streaming
  | closed (r : Reason)
deriving DecidableEq

/-- Session state: phase, inbound frames not yet consumed, heartbeats sent. -/
structure St where
  phase : Phase
  pend : List String
  hb : Nat
deriving DecidableEq

/-- Does an inbound frame contain the subscription key, as the dispatch loop
tests with str::contains. -/
def matchesKey (pairId f : String) : Bool := containsSub f (subKey pairId)

/-- Observable session events: the first-frame read, an outbound send with
its time in milliseconds from handshake completion, a skipped chatter frame,
a consumer callback invocation, and session close. -/
inductive Ev where
  | recvOpen (f : String)
  | send (frame : String) (t : Nat)
  | recvSkip (f : String)
  | cb (s : Snapshot)
  | closeEv (r : Reason)
deriving DecidableEq

/-- Small-step semantics of one session of Stream::new.  The first inbound
frame must equal the literal "o"; then the subscribe and identity frames are
sent in program order; entering streaming spawns the heartbeat task, which
sends the literal heartbeat frame immediately and then after each 3.2 second
sleep (send number k at time 3200 k), interleaving nondeterministically with
the dispatch loop; the dispatch loop skips frames without the subscription
key, invokes the consumer callback with the decoded snapshot of a matching
frame, and dies on the from_str panic of a matching frame that fails to
decode; an exhausted inbound stream ends the session cleanly. -/
inductive Step (pairId : String) : St → Ev → St → Prop where
  | openOk (fs : List String) (k : Nat) :
      Step pairId ⟨.start, "o" :: fs, k⟩ (.recvOpen "o") ⟨.opened, fs, k⟩
  | openBad (f : String) (fs : List String) (k : Nat) (h : f ≠ "o") :
      Step pairId ⟨.start, f :: fs, k⟩ (.closeEv .handshakeFailed) ⟨.closed .handshakeFailed, fs, k⟩
  | sendSub (fs : List String) (k : Nat) :
      Step pairId ⟨.opened, fs, k⟩ (.send (subscribeFrame pairId) 0) ⟨.subSent, fs, k⟩
  | sendIdent (fs : List String) (k : Nat) :
      Step pairId ⟨.subSent, fs, k⟩ (.send identFrame 0) ⟨.streaming, fs, k⟩
  | hbTick (fs : List String) (k : Nat) :
      Step pairId ⟨.streaming, fs, k⟩ (.send hbFrame (hbPeriodMs * k)) ⟨.streaming, fs, k + 1⟩
  | skip (f : String) (fs : List String) (k : Nat) (h : matchesKey pairId f = false) :
      Step pairId ⟨.streaming, f :: fs, k⟩ (.recvSkip f) ⟨.streaming, fs, k⟩
  | deliver (f : String) (fs : List String) (k : Nat) (s : Snapshot)
      (hm : matchesKey pairId f = true) (hd : Snapshot.from_str f = .ok s) :
      Step pairId ⟨.streaming, f :: fs, k⟩ (.cb s) ⟨.streaming, fs, k⟩
  | decodeBad (f : String) (fs : List String) (k : Nat) (e : PanicKind)
      (hm : matchesKey pairId f = true) (hd : Snapshot.from_str f = .panic e) :
      Step pairId ⟨.streaming, f :: fs, k⟩ (.closeEv (.decodeFail e)) ⟨.closed (.decodeFail e), fs, k⟩
  | eos (k : Nat) :
      Step pairId ⟨.streaming, [], k⟩ (.closeEv .endOfStream) ⟨.closed .endOfStream, [], k⟩

/-- Reflexive transitive closure of Step, collecting the event trace. -/
inductive Reaches (pairId : String) : St → List Ev → St → Prop where
  | nil (st : St) : Reaches pairId st [] st
  | cons (st : St) (e : Ev) (st1 : St) (tr : List Ev) (st2 : St) :
      Step pairId st e st1 → Reaches pairId st1 tr st2 → Reaches pairId st (e :: tr) st2

/-- Initial session state over a list of inbound frames. -/
def init (frames : List String) : St := ⟨.start, frames, 0⟩

/-- The outbound frames of a trace, with send times. -/
def sendsOf (tr : List Ev) : List (String × Nat) :=
  tr.filterMap (fun e => match e with
    | .send fr t => some (fr, t)
    | _ => none)

/-- The callback invocations of a trace, in order. -/
def cbsOf (tr : List Ev) : List Snapshot :=
  tr.filterMap (fun e => match e with
    | .cb s => some s
    | _ => none)

/-- How many handshake frames have been sent by each phase. -/
def hOf : Phase → Nat
  | .start => 0
  | .opened => 0
  | .subSent => 1
  | .streaming => 2
  | .closed .handshakeFailed => 0
  | .closed _ => 2

/-- The two handshake sends in order. -/
def hsList (pairId : String) : List (String × Nat) := [(subscribeFrame pairId, 0), (identFrame, 0)]

/-- Successful decode result, if any. -/
def okOf : DecodeOutcome → Option Snapshot
  | .ok s => some s
  | .panic _ => none

end Stream

/-- List of zero characters for width padding. -/
def padZeros (w : Nat) (ds : List Char) : List Char := List.replicate (w - ds.length) '0' ++ ds

/-- Model of generate_stream_url (src/push.rs).  The three arguments are the
raw draws of the thread rng, reduced to u8, u16 and u32 by their types;
the code renders the u8 modulo 100 with zero-padded width 2, the u16 modulo
0xfff as zero-padded 3-digit lowercase hex, and the u32 as zero-padded
8-digit lowercase hex. -/
def generate_stream_url (r1 r2 r3 : Nat) : String :=
  "wss://stream2" ++ String.mk (padZeros 2 (printNat (r1 % 2 ^ 8 % 100)))
    ++ ".forexpros.com/echo/" ++ String.mk (padZeros 3 (hexDigs (r2 % 2 ^ 16 % 0xfff)))
    ++ "/" ++ String.mk (padZeros 8 (hexDigs (r3 % 2 ^ 32)))
    ++ "/websocket"

/-- Hexadecimal digit characters as rendered lowercase. -/
def isHexDigit (c : Char) : Bool := c.isDigit || ('a' ≤ c && c ≤ 'f')

/-- Decidable equality for Except results, used to evaluate decode results on
concrete inputs. -/
instance {ε α : Type} [DecidableEq ε] [DecidableEq α] : DecidableEq (Except ε α) := fun x y =>
  match x, y with
  | .ok a, .ok b =>
      if h : a = b then .isTrue (congrArg Except.ok h)
      else .isFalse (fun hh => h (Except.ok.inj hh))
  | .error a, .error b =>
      if h : a = b then .isTrue (congrArg Except.error h)
      else .isFalse (fun hh => h (Except.error.inj hh))
  | .ok _, .error _ => .isFalse (fun hh => Except.noConfusion hh)
  | .error _, .ok _ => .isFalse (fun hh => Except.noConfusion hh)

/-- First value bound to a key in an object entry list. -/
def lookupKey (k : List Char) : List (List Char × Json) → Option Json
  | [] => none
  | (k', v) :: t => if k' = k then some v else lookupKey k t

/-- The visitor state after processing the canonical entries that precede a
replaced turnover_numeric entry (all canonical fields seen except
turnover_numeric). -/
def stC : PState :=
  { pid := some "945629".data
    last_dir := some (some "redBg".data)
    last_numeric := some ⟨false, ['1', '8', '9', '5', '1'], some ['2'], none⟩
    last := some "18,951.2".data
    bid := some "18,954.0".data
    ask := some "18,956.0".data
    high := some "19,956.0".data
    low := some "18,279.0".data
    last_close := some "19,188.0".data
    pc := some "-236.8".data
    pcp := some "-1.23%".data
    pc_col := some "redFont".data
    turnover := some "21.50K".data
    turnover_numeric := none
    time := some "19:21:50".data
    timestamp := some 1606850510 }

/-! Helper lemmas: digit rendering and digit values. -/

theorem natDigsAux_congr (b : Nat) (hb : 2 ≤ b) :
    ∀ f g n, n < f → n < g → natDigsAux b f n = natDigsAux b g n := by
  intro f
  induction f with
  | zero => intro g n h _; exact absurd h (Nat.not_lt_zero n)
  | succ f ih =>
    intro g n hf hg
    cases g with
    | zero => exact absurd hg (Nat.not_lt_zero n)
    | succ g =>
      by_cases hn : n < b
      · simp [natDigsAux, hn]
      · have hbn : 0 < n := by omega
        have hdiv : n / b < n := Nat.div_lt_self hbn (by omega)
        simp only [natDigsAux, if_neg hn]
        rw [ih g (n / b) (by omega) (by omega)]

theorem digsVal_append (ds : List Char) (c : Char) :
    digsVal (ds ++ [c]) = 10 * digsVal ds + (c.toNat - 48) := by
  simp [digsVal, List.foldl_append]

theorem digitChar_toNat (m : Nat) (h : m < 10) : (Nat.digitChar m).toNat - 48 = m := by
  interval_cases m <;> rfl

theorem digitChar_isDigit (m : Nat) (h : m < 10) : (Nat.digitChar m).isDigit = true := by
  interval_cases m <;> decide

theorem digitChar_isHex (m : Nat) (h : m < 16) : isHexDigit (Nat.digitChar m) = true := by
  interval_cases m <;> decide

theorem digsVal_natDigsAux : ∀ f n, n < f → digsVal (natDigsAux 10 f n) = n := by
  intro f
  induction f with
  | zero => intro n h; exact absurd h (Nat.not_lt_zero n)
  | succ f ih =>
    intro n hf
    by_cases hn : n < 10
    · simp [natDigsAux, hn, digsVal, digitChar_toNat n hn]
    · have hbn : 0 < n := by omega
      have hdiv : n / 10 < n := Nat.div_lt_self hbn (by omega)
      simp only [natDigsAux, if_neg hn]
      rw [digsVal_append, ih (n / 10) (by omega), digitChar_toNat (n % 10) (Nat.mod_lt n (by omega))]
      omega

theorem printNat_val (n : Nat) : digsVal (printNat n) = n :=
  digsVal_natDigsAux (n + 1) n (Nat.lt_succ_self n)

theorem natDigsAux_ne_nil (b : Nat) : ∀ f n, 0 < f → natDigsAux b f n ≠ [] := by
  intro f n hf
  cases f with
  | zero => exact absurd hf (by omega)
  | succ f =>
    by_cases hn : n < b
    · simp [natDigsAux, hn]
    · simp [natDigsAux, hn]

theorem natDigsAux_all_digits : ∀ f n, n < f → (natDigsAux 10 f n).all (·.isDigit) = true := by
  intro f
  induction f with
  | zero => intro n h; exact absurd h (Nat.not_lt_zero n)
  | succ f ih =>
    intro n hf
    by_cases hn : n < 10
    · simp [natDigsAux, hn, digitChar_isDigit n hn]
    · have hdiv : n / 10 < n := Nat.div_lt_self (by omega) (by omega)
      simp only [natDigsAux, if_neg hn, List.all_append]
      rw [ih (n / 10) (by omega)]
      simp [digitChar_isDigit (n % 10) (Nat.mod_lt n (by omega))]

theorem printNat_all_digits (n : Nat) : (printNat n).all (·.isDigit) = true :=
  natDigsAux_all_digits (n + 1) n (Nat.lt_succ_self n)

theorem natDigsAux_all_hex : ∀ f n, n < f → (natDigsAux 16 f n).all isHexDigit = true := by
  intro f
  induction f with
  | zero => intro n h; exact absurd h (Nat.not_lt_zero n)
  | succ f ih =>
    intro n hf
    by_cases hn : n < 16
    · simp [natDigsAux, hn, digitChar_isHex n hn]
    · have hdiv : n / 16 < n := Nat.div_lt_self (by omega) (by omega)
      simp only [natDigsAux, if_neg hn, List.all_append]
      rw [ih (n / 16) (by omega)]
      simp [digitChar_isHex (n % 16) (Nat.mod_lt n (by omega))]

theorem natDigsAux_head_ne_zero : ∀ f n, n < f → 0 < n →
    (natDigsAux 10 f n).head? ≠ some '0' := by
  intro f
  induction f with
  | zero => intro n h; exact absurd h (Nat.not_lt_zero n)
  | succ f ih =>
    intro n hf hn0
    by_cases hn : n < 10
    · simp only [natDigsAux, if_pos hn, List.head?]
      intro hc
      have : Nat.digitChar n = '0' := by injection hc
      interval_cases n <;> exact absurd this (by decide)
    · have hdiv : n / 10 < n := Nat.div_lt_self (by omega) (by omega)
      have hd0 : 0 < n / 10 := Nat.div_pos (by omega) (by omega)
      simp only [natDigsAux, if_neg hn]
      cases heq : natDigsAux 10 f (n / 10) with
      | nil =>
          exact absurd heq (natDigsAux_ne_nil 10 f (n / 10) (by
            cases f with
            | zero => omega
            | succ f => omega))
      | cons c t =>
          have := ih (n / 10) (by omega) hd0
          rw [heq] at this
          simpa using this

theorem natDigsAux_len_le (b : Nat) (hb : 2 ≤ b) : ∀ f n k, n < f → n < b ^ k → 1 ≤ k →
    (natDigsAux b f n).length ≤ k := by
  intro f
  induction f with
  | zero => intro n k h; exact absurd h (Nat.not_lt_zero n)
  | succ f ih =>
    intro n k hf hk hk1
    by_cases hn : n < b
    · simp [natDigsAux, hn]; omega
    · have hdiv : n / b < n := Nat.div_lt_self (by omega) (by omega)
      cases k with
      | zero => omega
      | succ k =>
          have hk2 : 1 ≤ k := by
            by_contra hc
            have : k = 0 := by omega
            subst this
            simp at hk
            omega
          have hdb : n / b < b ^ k := by
            rw [Nat.div_lt_iff_lt_mul (by omega)]
            calc n < b ^ (k + 1) := hk
            _ = b ^ k * b := by ring
          simp only [natDigsAux, if_neg hn, List.length_append, List.length_singleton]
          have := ih (n / b) k (by omega) hdb hk2
          omega

theorem padZeros_len (w : Nat) (ds : List Char) (h : ds.length ≤ w) :
    (padZeros w ds).length = w := by
  simp [padZeros]
  omega

theorem padZeros_all (p : Char → Bool) (w : Nat) (ds : List Char) (h : ds.all p = true)
    (h0 : p '0' = true) : (padZeros w ds).all p = true := by
  simp only [padZeros, List.all_append, Bool.and_eq_true]
  refine ⟨?_, h⟩
  simp
  exact Or.inr h0

/-- Claim C2 (code bug side): on inputs missing the opening delimiter or the
closing brace, Snapshot::from_str panics via expect; the model records the
panic, and there is no returned MalformedEnvelope error value, since from_str
returns the Snapshot directly rather than a Result. -/
theorem C2_missing_delimiters_panic :
    Snapshot.from_str "hello" = .panic .expectOpen
    ∧ Snapshot.from_str "ab::\x7bcd" = .panic .expectClose := by
  exact ⟨rfl, rfl⟩

/-! Helper lemmas: decoding with a replaced turnover_numeric value. -/

theorem fold_canon_head :
    List.foldlM stepEntry ({} : PState) (dropKey "turnover_numeric".data (snapEntries canonSnap))
      = .ok stC := by
  rfl

theorem stepEntry_stC_tn (j : Json) :
    stepEntry stC ("turnover_numeric".data, j)
      = (deserialize_u32_or_string j).map (fun x => { stC with turnover_numeric := some x }) := by
  rfl

theorem finalize_stC_tn (n : Nat) :
    finalize { stC with turnover_numeric := some n }
      = .ok { canonSnap with turnover_numeric := n } := by
  rfl

theorem dSnapshot_withTN (j : Json) :
    dSnapshot (.obj (withTN j))
      = (deserialize_u32_or_string j).map (fun n => { canonSnap with turnover_numeric := n }) := by
  have happ : withTN j
      = dropKey "turnover_numeric".data (snapEntries canonSnap) ++ [("turnover_numeric".data, j)] :=
    rfl
  show (List.foldlM stepEntry {} (withTN j)) >>= finalize = _
  rw [happ, List.foldlM_append, fold_canon_head]
  show (List.foldlM stepEntry stC [("turnover_numeric".data, j)]) >>= finalize = _
  show (stepEntry stC ("turnover_numeric".data, j) >>= fun s => pure s) >>= finalize = _
  rw [stepEntry_stC_tn]
  cases hj : deserialize_u32_or_string j with
  | ok n =>
      show (Except.ok { stC with turnover_numeric := some n } >>= fun s => pure s) >>= finalize = _
      show finalize { stC with turnover_numeric := some n } = _
      rw [finalize_stC_tn]
      rfl
  | error e => rfl

theorem asU64_nat (ds : List Char) (h : digsVal ds < 2 ^ 64) :
    JNum.asU64 ⟨false, ds, none, none⟩ = some (digsVal ds) := by
  simp [JNum.asU64, h]
  exact h.trans_eq (by norm_num)

theorem deser_u32_int (n : Nat) (h : n < 2 ^ 32) :
    deserialize_u32_or_string (.num ⟨false, printNat n, none, none⟩) = .ok n := by
  have h64 : digsVal (printNat n) < 2 ^ 64 := by
    rw [printNat_val]
    calc n < 2 ^ 32 := h
    _ < 2 ^ 64 := by norm_num
  simp only [deserialize_u32_or_string]
  rw [asU64_nat _ h64, printNat_val]
  show Except.ok (n % 2 ^ 32) = _
  rw [Nat.mod_eq_of_lt h]

/-- Claim C10: a JSON integer value for turnover_numeric reaches visit_u64 of
the custom visitor, which accepts any u64 and truncates it with an `as u32`
cast; decoding succeeds for values at or above 2^32 and yields the value
modulo 2^32 instead of rejecting it. -/
theorem C10_turnover_truncates (v : Nat) (h32 : 2 ^ 32 ≤ v) (h64 : v < 2 ^ 64) :
    deserialize_u32_or_string (.num ⟨false, printNat v, none, none⟩) = .ok (v % 2 ^ 32)
    ∧ dSnapshot (.obj (withTN (.num ⟨false, printNat v, none, none⟩)))
        = .ok { canonSnap with turnover_numeric := v % 2 ^ 32 }
    ∧ v % 2 ^ 32 ≠ v := by
  have hd : deserialize_u32_or_string (.num ⟨false, printNat v, none, none⟩) = .ok (v % 2 ^ 32) := by
    have h64' : digsVal (printNat v) < 2 ^ 64 := by rw [printNat_val]; exact h64
    simp only [deserialize_u32_or_string]
    rw [asU64_nat _ h64', printNat_val]
  refine ⟨hd, ?_, ?_⟩
  · rw [dSnapshot_withTN, hd]
    rfl
  · have hm : v % 2 ^ 32 < 2 ^ 32 := Nat.mod_lt v (by norm_num)
    omega

/-- Witness for C10 at the concrete wire value 2^32 + 3. -/
theorem C10_turnover_truncates_witness :
    (2 ^ 32 ≤ 4294967299 ∧ 4294967299 < 2 ^ 64)
    ∧ deserialize_u32_or_string (.num ⟨false, printNat 4294967299, none, none⟩) = .ok 3 := by
  refine ⟨⟨by norm_num, by norm_num⟩, ?_⟩
  have h := (C10_turnover_truncates 4294967299 (by norm_num) (by norm_num)).1
  have hm : (4294967299 : Nat) % 2 ^ 32 = 3 := by norm_num
  rw [hm] at h
  exact h

/-- Claim C3: turnover_numeric decode rules — a JSON integer decodes to
itself (stated for the u32 range; truncation above it is claim C10), the JSON
string "21503" decodes to 21503, the empty JSON string to 0, an absent key to
0, and the non-numeric string "olia" fails with the InvalidNumber error of
the custom visitor, all over the canonical snapshot object. -/
theorem C3_turnover_numeric_rules :
    (∀ n : Nat, n < 2 ^ 32 →
      dSnapshot (.obj (withTN (.num ⟨false, printNat n, none, none⟩)))
        = .ok { canonSnap with turnover_numeric := n })
    ∧ dSnapshot (.obj (withTN (.str "21503".data))) = .ok { canonSnap with turnover_numeric := 21503 }
    ∧ dSnapshot (.obj (withTN (.str []))) = .ok { canonSnap with turnover_numeric := 0 }
    ∧ dSnapshot (.obj (dropKey "turnover_numeric".data (snapEntries canonSnap)))
        = .ok { canonSnap with turnover_numeric := 0 }
    ∧ dSnapshot (.obj (withTN (.str "olia".data)))
        = .error (.invalidNumber "invalid digit found in string") := by
  refine ⟨?_, rfl, rfl, rfl, rfl⟩
  intro n hn
  rw [dSnapshot_withTN, deser_u32_int n hn]
  rfl

/-- Witness for C3 at the canonical integer value 21503. -/
theorem C3_turnover_numeric_rules_witness :
    (21503 : Nat) < 2 ^ 32
    ∧ dSnapshot (.obj (withTN (.num ⟨false, printNat 21503, none, none⟩)))
        = .ok { canonSnap with turnover_numeric := 21503 } :=
  ⟨by norm_num, C3_turnover_numeric_rules.1 21503 (by norm_num)⟩

/-! Helper lemmas: padded digit strings keep their value. -/

theorem digsVal_cons_zero (l : List Char) : digsVal ('0' :: l) = digsVal l := rfl

theorem digsVal_zeros : ∀ (k : Nat) (ds : List Char),
    digsVal (List.replicate k '0' ++ ds) = digsVal ds := by
  intro k
  induction k with
  | zero => intro ds; rfl
  | succ k ih =>
      intro ds
      rw [List.replicate_succ, List.cons_append, digsVal_cons_zero]
      exact ih ds

theorem digsVal_padZeros (w : Nat) (ds : List Char) : digsVal (padZeros w ds) = digsVal ds :=
  digsVal_zeros (w - ds.length) ds

/-- Claim C9: every endpoint the generator produces matches the fixed URL
shape, with the host discriminator a two digit rendering of an integer below
100, the first path token exactly three lowercase hex characters, and the
second exactly eight, for every draw of the random source. -/
theorem C9_endpoint_shape (r1 r2 r3 : Nat) :
    ∃ d t1 t2 : List Char,
      generate_stream_url r1 r2 r3
        = "wss://stream2" ++ String.mk d ++ ".forexpros.com/echo/" ++ String.mk t1 ++ "/"
            ++ String.mk t2 ++ "/websocket"
      ∧ d.length = 2 ∧ d.all (·.isDigit) = true ∧ digsVal d < 100
      ∧ t1.length = 3 ∧ t1.all isHexDigit = true
      ∧ t2.length = 8 ∧ t2.all isHexDigit = true := by
  have hv1 : r1 % 2 ^ 8 % 100 < 100 := Nat.mod_lt _ (by norm_num)
  have hv2 : r2 % 2 ^ 16 % 0xfff < 0xfff := Nat.mod_lt _ (by norm_num)
  have hv3 : r3 % 2 ^ 32 < 2 ^ 32 := Nat.mod_lt _ (by norm_num)
  refine ⟨padZeros 2 (printNat (r1 % 2 ^ 8 % 100)), padZeros 3 (hexDigs (r2 % 2 ^ 16 % 0xfff)),
    padZeros 8 (hexDigs (r3 % 2 ^ 32)), rfl, ?_, ?_, ?_, ?_, ?_, ?_, ?_⟩
  · exact padZeros_len 2 _ (natDigsAux_len_le 10 (by norm_num) _ _ 2 (Nat.lt_succ_self _)
      (by simpa using hv1) (by norm_num))
  · exact padZeros_all _ 2 _ (printNat_all_digits _) (by decide)
  · rw [digsVal_padZeros, printNat_val]
    exact hv1
  · exact padZeros_len 3 _ (natDigsAux_len_le 16 (by norm_num) _ _ 3 (Nat.lt_succ_self _)
      (Nat.lt_of_lt_of_le hv2 (by norm_num)) (by norm_num))
  · exact padZeros_all _ 3 _ (natDigsAux_all_hex _ _ (Nat.lt_succ_self _)) (by decide)
  · exact padZeros_len 8 _ (natDigsAux_len_le 16 (by norm_num) _ _ 8 (Nat.lt_succ_self _)
      (by simpa using hv3) (by norm_num))
  · exact padZeros_all _ 8 _ (natDigsAux_all_hex _ _ (Nat.lt_succ_self _)) (by decide)

/-! Helper lemmas: how the visitor fold treats the defaulted string fields. -/

theorem except_map_ok {ε α β : Type} (f : α → β) (x : Except ε α) (b : β)
    (h : Except.map f x = .ok b) : ∃ a, x = .ok a ∧ b = f a := by
  cases x with
  | ok a => exact ⟨a, rfl, (Except.ok.inj h).symm⟩
  | error e => exact absurd h (by simp [Except.map])

theorem if_branch_ok {c d : Prop} [Decidable c] [Decidable d] {α : Type} {e : DeErr}
    {f : α → PState} {r : Except DeErr α} {rest : Except DeErr PState} {st' : PState}
    (h : (if c then (if d then Except.error e else Except.map f r) else rest) = .ok st') :
    (¬ c ∧ rest = .ok st') ∨ (c ∧ ∃ x, r = .ok x ∧ st' = f x) := by
  by_cases hc : c
  · rw [if_pos hc] at h
    by_cases hd : d
    · rw [if_pos hd] at h
      exact absurd h (fun hh => Except.noConfusion hh)
    · rw [if_neg hd] at h
      obtain ⟨x, hx, hb⟩ := except_map_ok _ _ _ h
      exact Or.inr ⟨hc, x, hx, hb⟩
  · rw [if_neg hc] at h
    exact Or.inl ⟨hc, h⟩

theorem stepEntry_pres_lc (st : PState) (k : List Char) (v : Json) (st' : PState)
    (h : stepEntry st (k, v) = .ok st') (hk : k ≠ "last_close".data) :
    st'.last_close = st.last_close := by
  rcases if_branch_ok h with ⟨hc0, h⟩ | ⟨hc0, x, hx, hb⟩
  case inr =>
      subst hb
      rfl
  case inl =>
    rcases if_branch_ok h with ⟨hc1, h⟩ | ⟨hc1, x, hx, hb⟩
    case inr =>
        subst hb
        rfl
    case inl =>
      rcases if_branch_ok h with ⟨hc2, h⟩ | ⟨hc2, x, hx, hb⟩
      case inr =>
          subst hb
          rfl
      case inl =>
        rcases if_branch_ok h with ⟨hc3, h⟩ | ⟨hc3, x, hx, hb⟩
        case inr =>
            subst hb
            rfl
        case inl =>
          rcases if_branch_ok h with ⟨hc4, h⟩ | ⟨hc4, x, hx, hb⟩
          case inr =>
              subst hb
              rfl
          case inl =>
            rcases if_branch_ok h with ⟨hc5, h⟩ | ⟨hc5, x, hx, hb⟩
            case inr =>
                subst hb
                rfl
            case inl =>
              rcases if_branch_ok h with ⟨hc6, h⟩ | ⟨hc6, x, hx, hb⟩
              case inr =>
                  subst hb
                  rfl
              case inl =>
                rcases if_branch_ok h with ⟨hc7, h⟩ | ⟨hc7, x, hx, hb⟩
                case inr =>
                    subst hb
                    rfl
                case inl =>
                  rcases if_branch_ok h with ⟨hc8, h⟩ | ⟨hc8, x, hx, hb⟩
                  case inr =>
                      exact absurd hc8 hk
                  case inl =>
                    rcases if_branch_ok h with ⟨hc9, h⟩ | ⟨hc9, x, hx, hb⟩
                    case inr =>
                        subst hb
                        rfl
                    case inl =>
                      rcases if_branch_ok h with ⟨hc10, h⟩ | ⟨hc10, x, hx, hb⟩
                      case inr =>
                          subst hb
                          rfl
                      case inl =>
                        rcases if_branch_ok h with ⟨hc11, h⟩ | ⟨hc11, x, hx, hb⟩
                        case inr =>
                            subst hb
                            rfl
                        case inl =>
                          rcases if_branch_ok h with ⟨hc12, h⟩ | ⟨hc12, x, hx, hb⟩
                          case inr =>
                              subst hb
                              rfl
                          case inl =>
                            rcases if_branch_ok h with ⟨hc13, h⟩ | ⟨hc13, x, hx, hb⟩
                            case inr =>
                                subst hb
                                rfl
                            case inl =>
                              rcases if_branch_ok h with ⟨hc14, h⟩ | ⟨hc14, x, hx, hb⟩
                              case inr =>
                                  subst hb
                                  rfl
                              case inl =>
                                rcases if_branch_ok h with ⟨hc15, h⟩ | ⟨hc15, x, hx, hb⟩
                                case inr =>
                                    subst hb
                                    rfl
                                case inl =>
                                    injection h with h0
                                    subst h0
                                    rfl

theorem stepEntry_pres_tv (st : PState) (k : List Char) (v : Json) (st' : PState)
    (h : stepEntry st (k, v) = .ok st') (hk : k ≠ "turnover".data) :
    st'.turnover = st.turnover := by
  rcases if_branch_ok h with ⟨hc0, h⟩ | ⟨hc0, x, hx, hb⟩
  case inr =>
      subst hb
      rfl
  case inl =>
    rcases if_branch_ok h with ⟨hc1, h⟩ | ⟨hc1, x, hx, hb⟩
    case inr =>
        subst hb
        rfl
    case inl =>
      rcases if_branch_ok h with ⟨hc2, h⟩ | ⟨hc2, x, hx, hb⟩
      case inr =>
          subst hb
          rfl
      case inl =>
        rcases if_branch_ok h with ⟨hc3, h⟩ | ⟨hc3, x, hx, hb⟩
        case inr =>
            subst hb
            rfl
        case inl =>
          rcases if_branch_ok h with ⟨hc4, h⟩ | ⟨hc4, x, hx, hb⟩
          case inr =>
              subst hb
              rfl
          case inl =>
            rcases if_branch_ok h with ⟨hc5, h⟩ | ⟨hc5, x, hx, hb⟩
            case inr =>
                subst hb
                rfl
            case inl =>
              rcases if_branch_ok h with ⟨hc6, h⟩ | ⟨hc6, x, hx, hb⟩
              case inr =>
                  subst hb
                  rfl
              case inl =>
                rcases if_branch_ok h with ⟨hc7, h⟩ | ⟨hc7, x, hx, hb⟩
                case inr =>
                    subst hb
                    rfl
                case inl =>
                  rcases if_branch_ok h with ⟨hc8, h⟩ | ⟨hc8, x, hx, hb⟩
                  case inr =>
                      subst hb
                      rfl
                  case inl =>
                    rcases if_branch_ok h with ⟨hc9, h⟩ | ⟨hc9, x, hx, hb⟩
                    case inr =>
                        subst hb
                        rfl
                    case inl =>
                      rcases if_branch_ok h with ⟨hc10, h⟩ | ⟨hc10, x, hx, hb⟩
                      case inr =>
                          subst hb
                          rfl
                      case inl =>
                        rcases if_branch_ok h with ⟨hc11, h⟩ | ⟨hc11, x, hx, hb⟩
                        case inr =>
                            subst hb
                            rfl
                        case inl =>
                          rcases if_branch_ok h with ⟨hc12, h⟩ | ⟨hc12, x, hx, hb⟩
                          case inr =>
                              exact absurd hc12 hk
                          case inl =>
                            rcases if_branch_ok h with ⟨hc13, h⟩ | ⟨hc13, x, hx, hb⟩
                            case inr =>
                                subst hb
                                rfl
                            case inl =>
                              rcases if_branch_ok h with ⟨hc14, h⟩ | ⟨hc14, x, hx, hb⟩
                              case inr =>
                                  subst hb
                                  rfl
                              case inl =>
                                rcases if_branch_ok h with ⟨hc15, h⟩ | ⟨hc15, x, hx, hb⟩
                                case inr =>
                                    subst hb
                                    rfl
                                case inl =>
                                    injection h with h0
                                    subst h0
                                    rfl

theorem stepEntry_set_lc (st : PState) (v : Json) (st' : PState)
    (h : stepEntry st ("last_close".data, v) = .ok st') :
    st.last_close = none ∧ ∃ x, dStr v = .ok x ∧ st'.last_close = some x := by
  have h' : (if st.last_close.isSome then (.error (.dupField "last_close") : Except DeErr PState)
      else (dStr v).map (fun x => { st with last_close := some x })) = .ok st' := h
  cases hlc : st.last_close with
  | some w =>
      rw [hlc] at h'
      exact Except.noConfusion h'
  | none =>
      rw [hlc] at h'
      obtain ⟨x, hx, hb⟩ := except_map_ok _ _ _ h'
      subst hb
      exact ⟨rfl, x, hx, rfl⟩

theorem stepEntry_set_tv (st : PState) (v : Json) (st' : PState)
    (h : stepEntry st ("turnover".data, v) = .ok st') :
    st.turnover = none ∧ ∃ x, dStr v = .ok x ∧ st'.turnover = some x := by
  have h' : (if st.turnover.isSome then (.error (.dupField "turnover") : Except DeErr PState)
      else (dStr v).map (fun x => { st with turnover := some x })) = .ok st' := h
  cases hlc : st.turnover with
  | some w =>
      rw [hlc] at h'
      exact Except.noConfusion h'
  | none =>
      rw [hlc] at h'
      obtain ⟨x, hx, hb⟩ := except_map_ok _ _ _ h'
      subst hb
      exact ⟨rfl, x, hx, rfl⟩

theorem stepEntry_keep_lc (st : PState) (k : List Char) (v : Json) (st' : PState) (w : List Char)
    (h : stepEntry st (k, v) = .ok st') (hw : st.last_close = some w) :
    st'.last_close = some w := by
  by_cases hk : k = "last_close".data
  · subst hk
    obtain ⟨hn, _⟩ := stepEntry_set_lc st v st' h
    rw [hn] at hw
    exact Option.noConfusion hw
  · rw [stepEntry_pres_lc st k v st' h hk]
    exact hw

theorem stepEntry_keep_tv (st : PState) (k : List Char) (v : Json) (st' : PState) (w : List Char)
    (h : stepEntry st (k, v) = .ok st') (hw : st.turnover = some w) :
    st'.turnover = some w := by
  by_cases hk : k = "turnover".data
  · subst hk
    obtain ⟨hn, _⟩ := stepEntry_set_tv st v st' h
    rw [hn] at hw
    exact Option.noConfusion hw
  · rw [stepEntry_pres_tv st k v st' h hk]
    exact hw

theorem fold_pres_lc : ∀ (kvs : List (List Char × Json)) (st stf : PState),
    List.foldlM stepEntry st kvs = .ok stf →
    (∀ kv ∈ kvs, kv.1 ≠ "last_close".data) → stf.last_close = st.last_close := by
  intro kvs
  induction kvs with
  | nil =>
      intro st stf h _
      injection h with h0
      rw [h0]
  | cons kv t ih =>
      intro st stf h hk
      obtain ⟨k, v⟩ := kv
      have h' : stepEntry st (k, v) >>= (fun s => List.foldlM stepEntry s t) = .ok stf := h
      cases hs : stepEntry st (k, v) with
      | error e =>
          rw [hs] at h'
          exact Except.noConfusion h'
      | ok s1 =>
          rw [hs] at h'
          have h2 : List.foldlM stepEntry s1 t = .ok stf := h'
          rw [ih s1 stf h2 (fun kv2 hm => hk kv2 (List.mem_cons_of_mem _ hm))]
          exact stepEntry_pres_lc st k v s1 hs (hk (k, v) (List.mem_cons_self _ _))

theorem fold_pres_tv : ∀ (kvs : List (List Char × Json)) (st stf : PState),
    List.foldlM stepEntry st kvs = .ok stf →
    (∀ kv ∈ kvs, kv.1 ≠ "turnover".data) → stf.turnover = st.turnover := by
  intro kvs
  induction kvs with
  | nil =>
      intro st stf h _
      injection h with h0
      rw [h0]
  | cons kv t ih =>
      intro st stf h hk
      obtain ⟨k, v⟩ := kv
      have h' : stepEntry st (k, v) >>= (fun s => List.foldlM stepEntry s t) = .ok stf := h
      cases hs : stepEntry st (k, v) with
      | error e =>
          rw [hs] at h'
          exact Except.noConfusion h'
      | ok s1 =>
          rw [hs] at h'
          have h2 : List.foldlM stepEntry s1 t = .ok stf := h'
          rw [ih s1 stf h2 (fun kv2 hm => hk kv2 (List.mem_cons_of_mem _ hm))]
          exact stepEntry_pres_tv st k v s1 hs (hk (k, v) (List.mem_cons_self _ _))

theorem fold_keep_lc : ∀ (kvs : List (List Char × Json)) (st stf : PState) (w : List Char),
    List.foldlM stepEntry st kvs = .ok stf → st.last_close = some w →
    stf.last_close = some w := by
  intro kvs
  induction kvs with
  | nil =>
      intro st stf w h hw
      injection h with h0
      rw [h0] at hw
      exact hw
  | cons kv t ih =>
      intro st stf w h hw
      obtain ⟨k, v⟩ := kv
      have h' : stepEntry st (k, v) >>= (fun s => List.foldlM stepEntry s t) = .ok stf := h
      cases hs : stepEntry st (k, v) with
      | error e =>
          rw [hs] at h'
          exact Except.noConfusion h'
      | ok s1 =>
          rw [hs] at h'
          exact ih s1 stf w h' (stepEntry_keep_lc st k v s1 w hs hw)

theorem fold_keep_tv : ∀ (kvs : List (List Char × Json)) (st stf : PState) (w : List Char),
    List.foldlM stepEntry st kvs = .ok stf → st.turnover = some w →
    stf.turnover = some w := by
  intro kvs
  induction kvs with
  | nil =>
      intro st stf w h hw
      injection h with h0
      rw [h0] at hw
      exact hw
  | cons kv t ih =>
      intro st stf w h hw
      obtain ⟨k, v⟩ := kv
      have h' : stepEntry st (k, v) >>= (fun s => List.foldlM stepEntry s t) = .ok stf := h
      cases hs : stepEntry st (k, v) with
      | error e =>
          rw [hs] at h'
          exact Except.noConfusion h'
      | ok s1 =>
          rw [hs] at h'
          exact ih s1 stf w h' (stepEntry_keep_tv st k v s1 w hs hw)

theorem fold_set_lc : ∀ (kvs : List (List Char × Json)) (st stf : PState) (v : Json),
    List.foldlM stepEntry st kvs = .ok stf → st.last_close = none →
    lookupKey "last_close".data kvs = some v →
    ∃ x, dStr v = .ok x ∧ stf.last_close = some x := by
  intro kvs
  induction kvs with
  | nil => intro st stf v _ _ hl; exact Option.noConfusion hl
  | cons kv t ih =>
      intro st stf v h hn hl
      obtain ⟨k, v'⟩ := kv
      have h' : stepEntry st (k, v') >>= (fun s => List.foldlM stepEntry s t) = .ok stf := h
      cases hs : stepEntry st (k, v') with
      | error e =>
          rw [hs] at h'
          exact Except.noConfusion h'
      | ok s1 =>
          rw [hs] at h'
          by_cases hk : k = "last_close".data
          · subst hk
            have hv : v' = v := by
              have : lookupKey "last_close".data (("last_close".data, v') :: t) = some v' := by
                simp [lookupKey]
              rw [this] at hl
              exact (Option.some.inj hl)
            subst hv
            obtain ⟨_, x, hx, hs1⟩ := stepEntry_set_lc st v' s1 hs
            exact ⟨x, hx, fold_keep_lc t s1 stf x h' hs1⟩
          · have hl' : lookupKey "last_close".data t = some v := by
              have : lookupKey "last_close".data ((k, v') :: t)
                  = lookupKey "last_close".data t := by
                simp [lookupKey, hk]
              rw [this] at hl
              exact hl
            have hn1 : s1.last_close = none := by
              rw [stepEntry_pres_lc st k v' s1 hs hk]
              exact hn
            exact ih s1 stf v h' hn1 hl'

theorem fold_set_tv : ∀ (kvs : List (List Char × Json)) (st stf : PState) (v : Json),
    List.foldlM stepEntry st kvs = .ok stf → st.turnover = none →
    lookupKey "turnover".data kvs = some v →
    ∃ x, dStr v = .ok x ∧ stf.turnover = some x := by
  intro kvs
  induction kvs with
  | nil => intro st stf v _ _ hl; exact Option.noConfusion hl
  | cons kv t ih =>
      intro st stf v h hn hl
      obtain ⟨k, v'⟩ := kv
      have h' : stepEntry st (k, v') >>= (fun s => List.foldlM stepEntry s t) = .ok stf := h
      cases hs : stepEntry st (k, v') with
      | error e =>
          rw [hs] at h'
          exact Except.noConfusion h'
      | ok s1 =>
          rw [hs] at h'
          by_cases hk : k = "turnover".data
          · subst hk
            have hv : v' = v := by
              have : lookupKey "turnover".data (("turnover".data, v') :: t) = some v' := by
                simp [lookupKey]
              rw [this] at hl
              exact (Option.some.inj hl)
            subst hv
            obtain ⟨_, x, hx, hs1⟩ := stepEntry_set_tv st v' s1 hs
            exact ⟨x, hx, fold_keep_tv t s1 stf x h' hs1⟩
          · have hl' : lookupKey "turnover".data t = some v := by
              have : lookupKey "turnover".data ((k, v') :: t)
                  = lookupKey "turnover".data t := by
                simp [lookupKey, hk]
              rw [this] at hl
              exact hl
            have hn1 : s1.turnover = none := by
              rw [stepEntry_pres_tv st k v' s1 hs hk]
              exact hn
            exact ih s1 stf v h' hn1 hl'

theorem finalize_lc_tv (st : PState) (snap : Snapshot) (h : finalize st = .ok snap) :
    snap.last_close = String.mk (st.last_close.getD [])
    ∧ snap.turnover = String.mk (st.turnover.getD []) := by
  obtain ⟨p, ld, ln, l, b, a2, hi, lo, lc, pcv, pcpv, pccv, tv, tn, tmv, tsv⟩ := st
  cases p with
  | none => exact absurd h (fun hh => Except.noConfusion hh)
  | some px =>
    cases ln with
    | none => exact absurd h (fun hh => Except.noConfusion hh)
    | some lnx =>
      cases l with
      | none => exact absurd h (fun hh => Except.noConfusion hh)
      | some lx =>
        cases b with
        | none => exact absurd h (fun hh => Except.noConfusion hh)
        | some bx =>
          cases a2 with
          | none => exact absurd h (fun hh => Except.noConfusion hh)
          | some a2x =>
            cases hi with
            | none => exact absurd h (fun hh => Except.noConfusion hh)
            | some hix =>
              cases lo with
              | none => exact absurd h (fun hh => Except.noConfusion hh)
              | some lox =>
                cases pcv with
                | none => exact absurd h (fun hh => Except.noConfusion hh)
                | some pcvx =>
                  cases pcpv with
                  | none => exact absurd h (fun hh => Except.noConfusion hh)
                  | some pcpvx =>
                    cases pccv with
                    | none => exact absurd h (fun hh => Except.noConfusion hh)
                    | some pccvx =>
                      cases tmv with
                      | none => exact absurd h (fun hh => Except.noConfusion hh)
                      | some tmvx =>
                        cases tsv with
                        | none => exact absurd h (fun hh => Except.noConfusion hh)
                        | some tsvx =>
                          injection h with h0
                          subst h0
                          exact ⟨rfl, rfl⟩

theorem dSnapshot_obj_ok (kvs : List (List Char × Json)) (snap : Snapshot)
    (h : dSnapshot (.obj kvs) = .ok snap) :
    ∃ stf, List.foldlM stepEntry {} kvs = .ok stf ∧ finalize stf = .ok snap := by
  have h' : (List.foldlM stepEntry {} kvs) >>= finalize = .ok snap := h
  cases hf : List.foldlM stepEntry ({} : PState) kvs with
  | error e =>
      rw [hf] at h'
      exact Except.noConfusion h'
  | ok stf =>
      rw [hf] at h'
      exact ⟨stf, rfl, h'⟩

/-- Claim C5: over every snapshot JSON object that decodes successfully, an
absent last_close or turnover key yields the empty string for the
corresponding field, and a present string value passes through exactly; and
decode does succeed on the canonical object with both keys dropped, filling
both fields with the empty string. -/
theorem C5_default_fields :
    (∀ (kvs : List (List Char × Json)) (snap : Snapshot), dSnapshot (.obj kvs) = .ok snap →
      ((∀ kv ∈ kvs, kv.1 ≠ "last_close".data) → snap.last_close = "")
      ∧ ((∀ kv ∈ kvs, kv.1 ≠ "turnover".data) → snap.turnover = "")
      ∧ (∀ v, lookupKey "last_close".data kvs = some (.str v) → snap.last_close = String.mk v)
      ∧ (∀ v, lookupKey "turnover".data kvs = some (.str v) → snap.turnover = String.mk v))
    ∧ dSnapshot (.obj (dropKey "last_close".data (dropKey "turnover".data
        (snapEntries canonSnap))))
        = .ok { canonSnap with last_close := "", turnover := "" } := by
  refine ⟨?_, rfl⟩
  intro kvs snap h
  obtain ⟨stf, hf, hfin⟩ := dSnapshot_obj_ok kvs snap h
  obtain ⟨hlc, htv⟩ := finalize_lc_tv stf snap hfin
  refine ⟨?_, ?_, ?_, ?_⟩
  · intro hk
    rw [hlc, fold_pres_lc kvs {} stf hf hk]
    rfl
  · intro hk
    rw [htv, fold_pres_tv kvs {} stf hf hk]
    rfl
  · intro v hv
    obtain ⟨x, hx, hsf⟩ := fold_set_lc kvs {} stf (.str v) hf rfl hv
    have hxv : x = v := Except.ok.inj hx.symm
    rw [hlc, hsf, hxv]
    rfl
  · intro v hv
    obtain ⟨x, hx, hsf⟩ := fold_set_tv kvs {} stf (.str v) hf rfl hv
    have hxv : x = v := Except.ok.inj hx.symm
    rw [htv, hsf, hxv]
    rfl

/-- Witness for C5: the canonical object with the two keys dropped decodes
with empty defaulted fields. -/
theorem C5_default_fields_witness :
    dSnapshot (.obj (dropKey "last_close".data (dropKey "turnover".data
        (snapEntries canonSnap))))
      = .ok { canonSnap with last_close := "", turnover := "" }
    ∧ ({ canonSnap with last_close := "", turnover := "" } : Snapshot).last_close = "" :=
  ⟨C5_default_fields.2,
    (C5_default_fields.1 _ _ C5_default_fields.2).1 (by decide)⟩

/-! Helper lemmas: the session trace relation. -/

theorem reaches_closed (pairId : String) (r : Stream.Reason) (fs : List String) (k : Nat)
    (tr : List Stream.Ev) (st' : Stream.St)
    (h : Stream.Reaches pairId ⟨.closed r, fs, k⟩ tr st') :
    tr = [] ∧ st' = ⟨.closed r, fs, k⟩ := by
  cases h with
  | nil => exact ⟨rfl, rfl⟩
  | cons st e st1 tr' st2 hstep hrest => cases hstep

theorem reaches_start_bad (pairId f : String) (fs : List String) (hf : f ≠ "o")
    (tr : List Stream.Ev) (st' : Stream.St)
    (h : Stream.Reaches pairId ⟨.start, f :: fs, 0⟩ tr st') :
    Stream.sendsOf tr = [] ∧ (tr = [] ∨ st' = ⟨.closed .handshakeFailed, fs, 0⟩) := by
  cases h with
  | nil => exact ⟨rfl, Or.inl rfl⟩
  | cons st e st1 tr' st2 hstep hrest =>
      cases hstep with
      | openOk fs0 k => exact absurd rfl hf
      | openBad f0 fs0 k h0 =>
          obtain ⟨htr, hst⟩ := reaches_closed pairId _ fs 0 tr' st' hrest
          subst htr
          subst hst
          exact ⟨rfl, Or.inr rfl⟩

theorem reaches_start_send (pairId f : String) (fs : List String)
    (tr : List Stream.Ev) (st' : Stream.St)
    (h : Stream.Reaches pairId ⟨.start, f :: fs, 0⟩ tr st')
    (hs : Stream.sendsOf tr ≠ []) :
    f = "o" ∧ tr.head? = some (.recvOpen "o") := by
  cases h with
  | nil => exact absurd rfl hs
  | cons st e st1 tr' st2 hstep hrest =>
      cases hstep with
      | openOk fs0 k => exact ⟨rfl, rfl⟩
      | openBad f0 fs0 k h0 =>
          obtain ⟨htr, _⟩ := reaches_closed pairId _ fs 0 tr' st' hrest
          subst htr
          exact absurd rfl hs

/-- Claim C7: a first inbound frame other than the literal "o" drives the
session to Closed(HandshakeFailed) with no outbound send of any kind (in
particular, neither the subscribe nor the identity frame is sent); an
outbound send occurs in a trace only when the first frame was read and equals
"o". -/
theorem C7_handshake_gate (pairId f : String) (fs : List String) :
    (f ≠ "o" →
      (∀ (tr : List Stream.Ev) (st' : Stream.St),
          Stream.Reaches pairId (Stream.init (f :: fs)) tr st' →
          Stream.sendsOf tr = [] ∧ (tr = [] ∨ st' = ⟨.closed .handshakeFailed, fs, 0⟩))
      ∧ Stream.Reaches pairId (Stream.init (f :: fs)) [.closeEv .handshakeFailed]
          ⟨.closed .handshakeFailed, fs, 0⟩)
    ∧ (∀ (tr : List Stream.Ev) (st' : Stream.St),
        Stream.Reaches pairId (Stream.init (f :: fs)) tr st' →
        Stream.sendsOf tr ≠ [] → f = "o" ∧ tr.head? = some (.recvOpen "o")) := by
  refine ⟨fun hf => ⟨?_, ?_⟩, ?_⟩
  · intro tr st' h
    exact reaches_start_bad pairId f fs hf tr st' h
  · exact Stream.Reaches.cons _ _ _ _ _ (Stream.Step.openBad f fs 0 hf) (Stream.Reaches.nil _)
  · intro tr st' h hs
    exact reaches_start_send pairId f fs tr st' h hs

/-- Witness for C7: the session over the single first frame "x". -/
theorem C7_handshake_gate_witness :
    ("x" : String) ≠ "o"
    ∧ Stream.Reaches "1" (Stream.init ["x"]) [.closeEv .handshakeFailed]
        ⟨.closed .handshakeFailed, [], 0⟩ :=
  ⟨by decide, ((C7_handshake_gate "1" "x" []).1 (by decide)).2⟩

/-! Helper lemmas: trace projections and the outbound-order invariant. -/

theorem sendsOf_cons_recvOpen (f : String) (tr : List Stream.Ev) :
    Stream.sendsOf (.recvOpen f :: tr) = Stream.sendsOf tr := rfl

theorem sendsOf_cons_recvSkip (f : String) (tr : List Stream.Ev) :
    Stream.sendsOf (.recvSkip f :: tr) = Stream.sendsOf tr := rfl

theorem sendsOf_cons_cb (s : Snapshot) (tr : List Stream.Ev) :
    Stream.sendsOf (.cb s :: tr) = Stream.sendsOf tr := rfl

theorem sendsOf_cons_close (r : Stream.Reason) (tr : List Stream.Ev) :
    Stream.sendsOf (.closeEv r :: tr) = Stream.sendsOf tr := rfl

theorem sendsOf_cons_send (fr : String) (t : Nat) (tr : List Stream.Ev) :
    Stream.sendsOf (.send fr t :: tr) = (fr, t) :: Stream.sendsOf tr := rfl

theorem cbsOf_cons_recvOpen (f : String) (tr : List Stream.Ev) :
    Stream.cbsOf (.recvOpen f :: tr) = Stream.cbsOf tr := rfl

theorem cbsOf_cons_recvSkip (f : String) (tr : List Stream.Ev) :
    Stream.cbsOf (.recvSkip f :: tr) = Stream.cbsOf tr := rfl

theorem cbsOf_cons_send (fr : String) (t : Nat) (tr : List Stream.Ev) :
    Stream.cbsOf (.send fr t :: tr) = Stream.cbsOf tr := rfl

theorem cbsOf_cons_close (r : Stream.Reason) (tr : List Stream.Ev) :
    Stream.cbsOf (.closeEv r :: tr) = Stream.cbsOf tr := rfl

theorem cbsOf_cons_cb (s : Snapshot) (tr : List Stream.Ev) :
    Stream.cbsOf (.cb s :: tr) = s :: Stream.cbsOf tr := rfl

theorem hOf_le_two (ph : Stream.Phase) : Stream.hOf ph ≤ 2 := by
  cases ph with
  | start => decide
  | opened => decide
  | subSent => decide
  | streaming => decide
  | closed r => cases r <;> simp [Stream.hOf]

theorem hOf_start_eq : Stream.hOf .start = 0 := rfl

theorem hOf_opened_eq : Stream.hOf .opened = 0 := rfl

theorem hOf_subSent_eq : Stream.hOf .subSent = 1 := rfl

theorem hOf_streaming_eq : Stream.hOf .streaming = 2 := rfl

theorem c8_invariant (pairId : String) :
    ∀ (tr : List Stream.Ev) (st st' : Stream.St),
      Stream.Reaches pairId st tr st' →
      Stream.sendsOf tr
        = (((Stream.hsList pairId).drop (Stream.hOf st.phase)).take
            (Stream.hOf st'.phase - Stream.hOf st.phase))
          ++ (List.range' st.hb (st'.hb - st.hb)).map (fun i => (hbFrame, hbPeriodMs * i))
      ∧ Stream.hOf st.phase ≤ Stream.hOf st'.phase
      ∧ st.hb ≤ st'.hb
      ∧ (st.hb ≠ st'.hb → Stream.hOf st'.phase = 2) := by
  intro tr
  induction tr with
  | nil =>
      intro st st' h
      cases h with
      | nil =>
          refine ⟨?_, Nat.le_refl _, Nat.le_refl _, fun hc => absurd rfl hc⟩
          simp [Stream.sendsOf]
  | cons e tr' ih =>
      intro st st' h
      cases h with
      | cons _ _ st1 _ _ hstep hrest =>
          obtain ⟨hsends, hmono, hhb, hhb2⟩ := ih st1 st' hrest
          cases hstep with
          | openOk fs k =>
              exact ⟨by rw [sendsOf_cons_recvOpen, hsends]; try rfl, hmono, hhb, hhb2⟩
          | openBad f0 fs k h0 =>
              exact ⟨by rw [sendsOf_cons_close, hsends]; try rfl, hmono, hhb, hhb2⟩
          | sendSub fs k =>
              simp only [hOf_opened_eq, hOf_subSent_eq] at hsends hmono hhb hhb2 ⊢
              have h2 : Stream.hOf st'.phase ≤ 2 := hOf_le_two _
              have hcase : Stream.hOf st'.phase = 1 ∨ Stream.hOf st'.phase = 2 := by omega
              refine ⟨?_, by omega, hhb, hhb2⟩
              rcases hcase with h' | h' <;>
                (rw [sendsOf_cons_send, hsends, h']; simp [Stream.hsList])
          | sendIdent fs k =>
              simp only [hOf_subSent_eq, hOf_streaming_eq] at hsends hmono hhb hhb2 ⊢
              have h2 : Stream.hOf st'.phase ≤ 2 := hOf_le_two _
              have h' : Stream.hOf st'.phase = 2 := by omega
              refine ⟨?_, by omega, hhb, hhb2⟩
              rw [sendsOf_cons_send, hsends, h']
              simp [Stream.hsList]
          | hbTick fs k =>
              simp only [hOf_streaming_eq] at hsends hmono hhb hhb2 ⊢
              have h2 : Stream.hOf st'.phase ≤ 2 := hOf_le_two _
              have h' : Stream.hOf st'.phase = 2 := by omega
              refine ⟨?_, by omega, by omega, fun _ => h'⟩
              rw [sendsOf_cons_send, hsends, h']
              have hr : st'.hb - k = (st'.hb - (k + 1)) + 1 := by omega
              rw [hr, List.range'_succ]
              simp
          | skip f0 fs k hm =>
              exact ⟨by rw [sendsOf_cons_recvSkip, hsends]; try rfl, hmono, hhb, hhb2⟩
          | deliver f0 fs k s hm hd =>
              exact ⟨by rw [sendsOf_cons_cb, hsends]; try rfl, hmono, hhb, hhb2⟩
          | decodeBad f0 fs k e2 hm hd =>
              exact ⟨by rw [sendsOf_cons_close, hsends]; try rfl, hmono, hhb, hhb2⟩
          | eos k =>
              exact ⟨by rw [sendsOf_cons_close, hsends]; try rfl, hmono, hhb, hhb2⟩

/-- Claim C8: in every session trace the outbound frames are the subscribe
frame, then the identity frame, then only heartbeats; each heartbeat is the
documented literal frame and heartbeat number i goes out at time 3200 i
milliseconds after handshake completion, i.e. on the fixed 3.2 second period;
a heartbeat having been sent implies both handshake frames are out; and while
the session is streaming the next heartbeat send is always enabled. -/
theorem C8_outbound_order (pairId : String) (frames : List String)
    (tr : List Stream.Ev) (st' : Stream.St)
    (h : Stream.Reaches pairId (Stream.init frames) tr st') :
    (Stream.sendsOf tr
      = (Stream.hsList pairId).take (Stream.hOf st'.phase)
        ++ (List.range st'.hb).map (fun i => (hbFrame, hbPeriodMs * i)))
    ∧ (st'.hb ≠ 0 → Stream.hOf st'.phase = 2)
    ∧ (st'.phase = .streaming →
        Stream.Step pairId st' (.send hbFrame (hbPeriodMs * st'.hb))
          ⟨.streaming, st'.pend, st'.hb + 1⟩) := by
  obtain ⟨hs, hmono, hhb, hhb2⟩ := c8_invariant pairId tr (Stream.init frames) st' h
  refine ⟨?_, ?_, ?_⟩
  · rw [hs]
    simp [Stream.init, hOf_start_eq, List.range_eq_range']
  · intro hne
    exact hhb2 (fun hc => hne hc.symm)
  · intro hph
    obtain ⟨ph, pend, hb⟩ := st'
    simp only at hph
    subst hph
    exact Stream.Step.hbTick pend hb

/-- Witness for C8: the session over the single frame "o" with two heartbeat
ticks after the handshake. -/
theorem C8_outbound_order_witness :
    (Stream.Reaches "7" (Stream.init ["o"])
      [.recvOpen "o", .send (subscribeFrame "7") 0, .send identFrame 0,
        .send hbFrame 0, .send hbFrame 3200]
      ⟨.streaming, [], 2⟩)
    ∧ Stream.sendsOf
        [.recvOpen "o", .send (subscribeFrame "7") 0, .send identFrame 0,
          .send hbFrame 0, .send hbFrame 3200]
        = (Stream.hsList "7").take 2 ++ (List.range 2).map (fun i => (hbFrame, hbPeriodMs * i)) := by
  have htr : Stream.Reaches "7" (Stream.init ["o"])
      [.recvOpen "o", .send (subscribeFrame "7") 0, .send identFrame 0,
        .send hbFrame 0, .send hbFrame 3200]
      ⟨.streaming, [], 2⟩ :=
    .cons _ _ _ _ _ (.openOk [] 0)
      (.cons _ _ _ _ _ (.sendSub [] 0)
        (.cons _ _ _ _ _ (.sendIdent [] 0)
          (.cons _ _ _ _ _ (.hbTick [] 0)
            (.cons _ _ _ _ _ (.hbTick [] 1)
              (.nil _)))))
  exact ⟨htr, (C8_outbound_order "7" ["o"] _ _ htr).1⟩

/-- Claim C6: in the streaming phase, the consumer callback fires exactly for
the inbound frames that contain the subscription key and decode successfully,
synchronously in wire arrival order; frames without the key are skipped
without a callback; the first matching frame whose decode panics terminates
the session with that decode failure as the reason and no later frame is
processed; with no such frame the whole inbound list is consumed and the
session closes at end of stream. -/
theorem C6_dispatch (pairId : String) :
    ∀ (tr : List Stream.Ev) (frames : List String) (k0 : Nat) (st' : Stream.St),
      Stream.Reaches pairId ⟨.streaming, frames, k0⟩ tr st' →
      (∀ (e : Stream.Ev) (st2 : Stream.St), ¬ Stream.Step pairId st' e st2) →
      ∃ pre rest,
        Stream.cbsOf tr
          = pre.filterMap (fun f => if Stream.matchesKey pairId f
              then Stream.okOf (Snapshot.from_str f) else none)
        ∧ (∀ f ∈ pre, Stream.matchesKey pairId f = true → ∃ s, Snapshot.from_str f = .ok s)
        ∧ ((frames = pre ∧ rest = [] ∧ st'.phase = .closed .endOfStream)
          ∨ (∃ fbad e2, frames = pre ++ fbad :: rest
              ∧ Stream.matchesKey pairId fbad = true ∧ Snapshot.from_str fbad = .panic e2
              ∧ st'.phase = .closed (.decodeFail e2) ∧ st'.pend = rest)) := by
  intro tr
  induction tr with
  | nil =>
      intro frames k0 st' h hstuck
      cases h with
      | nil => exact absurd (Stream.Step.hbTick frames k0) (hstuck _ _)
  | cons e tr' ih =>
      intro frames k0 st' h hstuck
      cases h with
      | cons _ _ st1 _ _ hstep hrest =>
          cases hstep with
          | hbTick fs k =>
              obtain ⟨pre, rest, hcbs, hok, hcase⟩ := ih frames (k0 + 1) st' hrest hstuck
              exact ⟨pre, rest, by rw [cbsOf_cons_send]; exact hcbs, hok, hcase⟩
          | skip f0 fs k hm =>
              obtain ⟨pre, rest, hcbs, hok, hcase⟩ := ih fs k0 st' hrest hstuck
              refine ⟨f0 :: pre, rest, ?_, ?_, ?_⟩
              · rw [cbsOf_cons_recvSkip, hcbs, List.filterMap_cons]
                simp [hm]
              · intro f hf hmf
                rcases List.mem_cons.mp hf with h1 | h1
                · rw [h1, hm] at hmf
                  exact Bool.noConfusion hmf
                · exact hok f h1 hmf
              · rcases hcase with ⟨h1, h2, h3⟩ | ⟨fbad, e2, h1, h2, h3, h4, h5⟩
                · exact Or.inl ⟨by rw [h1], h2, h3⟩
                · exact Or.inr ⟨fbad, e2, by simp [h1], h2, h3, h4, h5⟩
          | deliver f0 fs k s hm hd =>
              obtain ⟨pre, rest, hcbs, hok, hcase⟩ := ih fs k0 st' hrest hstuck
              refine ⟨f0 :: pre, rest, ?_, ?_, ?_⟩
              · rw [cbsOf_cons_cb, hcbs, List.filterMap_cons]
                simp [hm, hd, Stream.okOf]
              · intro f hf hmf
                rcases List.mem_cons.mp hf with h1 | h1
                · exact ⟨s, by rw [h1]; exact hd⟩
                · exact hok f h1 hmf
              · rcases hcase with ⟨h1, h2, h3⟩ | ⟨fbad, e2, h1, h2, h3, h4, h5⟩
                · exact Or.inl ⟨by rw [h1], h2, h3⟩
                · exact Or.inr ⟨fbad, e2, by simp [h1], h2, h3, h4, h5⟩
          | decodeBad f0 fs k e2 hm hd =>
              obtain ⟨htr, hst⟩ := reaches_closed pairId _ fs k0 tr' st' hrest
              subst htr
              subst hst
              refine ⟨[], fs, rfl, ?_, ?_⟩
              · intro f hf
                exact absurd hf (List.not_mem_nil f)
              · exact Or.inr ⟨f0, e2, rfl, hm, hd, rfl, rfl⟩
          | eos k =>
              obtain ⟨htr, hst⟩ := reaches_closed pairId _ [] k0 tr' st' hrest
              subst htr
              subst hst
              exact ⟨[], [], rfl, fun f hf => absurd hf (List.not_mem_nil f),
                Or.inl ⟨rfl, rfl, rfl⟩⟩

set_option maxHeartbeats 4000000 in
set_option maxRecDepth 100000 in
/-- Witness for C6: a chatter frame, a well-formed snapshot frame, and a
malformed matching frame; the callback fires once and the session dies on the
malformed frame. -/
theorem C6_dispatch_witness :
    (Stream.Reaches "945629"
        ⟨.streaming, ["h", wireEncode canonSnap, "pid-945629::\x7bxx"], 0⟩
        [.recvSkip "h", .cb canonSnap, .closeEv (.decodeFail .expectClose)]
        ⟨.closed (.decodeFail .expectClose), [], 0⟩)
    ∧ ∃ pre rest,
        Stream.cbsOf [.recvSkip "h", .cb canonSnap, .closeEv (.decodeFail .expectClose)]
          = pre.filterMap (fun f => if Stream.matchesKey "945629" f
              then Stream.okOf (Snapshot.from_str f) else none)
        ∧ (∀ f ∈ pre, Stream.matchesKey "945629" f = true → ∃ s, Snapshot.from_str f = .ok s)
        ∧ ((["h", wireEncode canonSnap, "pid-945629::\x7bxx"] = pre ∧ rest = ([] : List String)
              ∧ (⟨.closed (.decodeFail .expectClose), [], 0⟩ : Stream.St).phase
                  = .closed .endOfStream)
          ∨ (∃ fbad e2,
              ["h", wireEncode canonSnap, "pid-945629::\x7bxx"] = pre ++ fbad :: rest
              ∧ Stream.matchesKey "945629" fbad = true ∧ Snapshot.from_str fbad = .panic e2
              ∧ (⟨.closed (.decodeFail .expectClose), [], 0⟩ : Stream.St).phase
                  = .closed (.decodeFail e2)
              ∧ (⟨.closed (.decodeFail .expectClose), [], 0⟩ : Stream.St).pend = rest)) := by
  have htr : Stream.Reaches "945629"
      ⟨.streaming, ["h", wireEncode canonSnap, "pid-945629::\x7bxx"], 0⟩
      [.recvSkip "h", .cb canonSnap, .closeEv (.decodeFail .expectClose)]
      ⟨.closed (.decodeFail .expectClose), [], 0⟩ :=
    .cons _ _ _ _ _ (.skip "h" _ 0 rfl)
      (.cons _ _ _ _ _ (.deliver (wireEncode canonSnap) _ 0 canonSnap rfl rfl)
        (.cons _ _ _ _ _ (.decodeBad "pid-945629::\x7bxx" [] 0 .expectClose rfl rfl)
          (.nil _)))
  refine ⟨htr, C6_dispatch "945629" _ _ 0 _ htr ?_⟩
  intro e st2 hst
  cases hst

/-! Helper lemma: an occurrence index stays inside the haystack. -/

theorem findIdx_le_length (pat : List Char) : ∀ (s : List Char) (j : Nat),
    findIdx pat s = some j → j + pat.length ≤ s.length := by
  intro s
  induction s with
  | nil =>
      intro j h
      unfold findIdx at h
      by_cases hp : pat.isPrefixOf ([] : List Char)
      · rw [if_pos hp] at h
        injection h with h0
        subst h0
        simpa using (List.isPrefixOf_iff_prefix.mp hp).length_le
      · rw [if_neg hp] at h
        exact Option.noConfusion h
  | cons c t ih =>
      intro j h
      unfold findIdx at h
      by_cases hp : pat.isPrefixOf (c :: t)
      · rw [if_pos hp] at h
        injection h with h0
        subst h0
        simpa using (List.isPrefixOf_iff_prefix.mp hp).length_le
      · rw [if_neg hp] at h
        cases hm : findIdx pat t with
        | none =>
            rw [hm] at h
            exact Option.noConfusion h
        | some j0 =>
            rw [hm] at h
            have h1 : j0 + 1 = j := by simpa using h
            have := ih j0 hm
            simp only [List.length_cons]
            omega

set_option maxRecDepth 10000 in
/-- Claim C1, counterexample: a raw input whose first closing brace precedes
the delimiter.  The claim prescribes searching for the closing brace after
the delimiter, which on this input selects a complete snapshot object and
decodes it (decodeSpecC1 gives ok); the code instead takes the first closing
brace of the whole input, producing an inverted slice, and panics. -/
theorem C1_counterexample :
    Snapshot.from_str cexC1 = .panic .sliceFail
    ∧ decodeSpecC1 cexC1 = .ok minSnap
    ∧ Snapshot.from_str cexC1 ≠ decodeSpecC1 cexC1 :=
  ⟨rfl, rfl, by decide⟩

theorem from_str_eval (src : String) (i j : Nat)
    (hi : findIdx delimP src.data = some i)
    (hj : findIdx [cbr] src.data = some j)
    (hij : i + 2 ≤ j + 1) :
    Snapshot.from_str src
      = match jsonDecodeSnapshot (remove3bs ((src.data.drop (i + 2)).take (j + 1 - (i + 2)))) with
        | .ok snap => DecodeOutcome.ok snap
        | .error e => DecodeOutcome.panic (.serdeFail e) := by
  have hjlen : j + 1 ≤ src.data.length := by
    have := findIdx_le_length [cbr] src.data j hj
    simp only [List.length_cons, List.length_nil] at this
    omega
  unfold Snapshot.from_str
  rw [hi, hj]
  unfold sliceE
  change (match (if i + 2 ≤ j + 1 ∧ j + 1 ≤ src.data.length then
      some (List.take (j + 1 - (i + 2)) (List.drop (i + 2) src.data)) else none) with
    | none => DecodeOutcome.panic PanicKind.sliceFail
    | some sub =>
      match jsonDecodeSnapshot (remove3bs sub) with
      | Except.ok snap => DecodeOutcome.ok snap
      | Except.error e => DecodeOutcome.panic (PanicKind.serdeFail e)) = _
  rw [if_pos ⟨hij, hjlen⟩]

/-- Claim C1 (amended): for every raw input containing the delimiter and a
closing brace at or after the delimiter's opening brace, decode slices from
the delimiter's opening brace through the first closing brace of the whole
input inclusive (the search does not start after the delimiter), removes
every three-backslash occurrence, and parses the result as a JSON object
against the Snapshot schema, panicking on parse failure. -/
theorem C1_slice_and_parse (src : String) (i j : Nat)
    (hi : findIdx delimP src.data = some i)
    (hj : findIdx [cbr] src.data = some j)
    (hij : i + 2 ≤ j + 1) :
    Snapshot.from_str src
      = match jsonDecodeSnapshot (remove3bs ((src.data.drop (i + 2)).take (j + 1 - (i + 2)))) with
        | .ok snap => DecodeOutcome.ok snap
        | .error e => DecodeOutcome.panic (.serdeFail e) :=
  from_str_eval src i j hi hj hij

set_option maxRecDepth 100000 in
set_option maxHeartbeats 4000000 in
/-- Witness for the amended C1 at the canonical wire frame. -/
theorem C1_slice_and_parse_witness :
    (findIdx delimP (wireEncode canonSnap).data = some 28
      ∧ findIdx [cbr] (wireEncode canonSnap).data = some 506
      ∧ 28 + 2 ≤ 506 + 1)
    ∧ Snapshot.from_str (wireEncode canonSnap)
        = match jsonDecodeSnapshot
            (remove3bs (((wireEncode canonSnap).data.drop 30).take 477)) with
          | .ok snap => DecodeOutcome.ok snap
          | .error e => DecodeOutcome.panic (.serdeFail e) := by
  refine ⟨⟨rfl, rfl, by norm_num⟩, ?_⟩
  exact C1_slice_and_parse (wireEncode canonSnap) 28 506 rfl rfl (by norm_num)

/-! Helper lemmas: character classes of printed snapshot text. -/

theorem safeChar_spec (c : Char) (h : safeChar c = true) :
    32 ≤ c.toNat ∧ c ≠ qt ∧ c ≠ bs ∧ c ≠ cbr := by
  simp only [safeChar, Bool.and_eq_true, bne_iff_ne, ne_eq, decide_eq_true_eq] at h
  exact ⟨h.1.1.1, h.1.1.2, h.1.2, h.2⟩

theorem ne_of_digit (c d : Char) (h : c.isDigit = true) (hd : d.isDigit = false) : c ≠ d :=
  fun hc => by
    subst hc
    rw [h] at hd
    exact Bool.noConfusion hd

theorem isWsC_of_digit (c : Char) (h : c.isDigit = true) : isWsC c = false := by
  cases hw : isWsC c with
  | false => rfl
  | true =>
      simp only [isWsC, Bool.or_eq_true, decide_eq_true_eq] at hw
      rcases hw with ((h1 | h1) | h1) | h1 <;> (subst h1; exact absurd h (by decide))

/-! Helper lemmas: stepping the substring search. -/

theorem findIdx_cons_no (pat : List Char) (c : Char) (t : List Char)
    (h : pat.isPrefixOf (c :: t) = false) :
    findIdx pat (c :: t) = (findIdx pat t).map (· + 1) := by
  show (if pat.isPrefixOf (c :: t) = true then some 0 else (findIdx pat t).map (· + 1))
      = (findIdx pat t).map (· + 1)
  rw [if_neg (by simp [h])]

theorem isPrefixOf_cons_false (p : Char) (ps : List Char) (c : Char) (t : List Char)
    (h : c ≠ p) : (p :: ps).isPrefixOf (c :: t) = false := by
  have hb : (p == c) = false := beq_eq_false_iff_ne.mpr (fun hh => h hh.symm)
  simp [List.isPrefixOf, hb]

theorem isPrefixOf_cons2_false (p1 p2 : Char) (ps : List Char) (c1 c2 : Char) (t : List Char)
    (h : c2 ≠ p2) : (p1 :: p2 :: ps).isPrefixOf (c1 :: c2 :: t) = false := by
  have hb : (p2 == c2) = false := beq_eq_false_iff_ne.mpr (fun hh => h hh.symm)
  simp [List.isPrefixOf, hb]

theorem delim_cons_no (c : Char) (t : List Char) (h : c ≠ ':') :
    findIdx delimP (c :: t) = (findIdx delimP t).map (· + 1) :=
  findIdx_cons_no delimP c t (isPrefixOf_cons_false ':' [':', obr] c t h)

theorem delim_cons2_no (c2 : Char) (t : List Char) (h : c2 ≠ ':') :
    findIdx delimP (':' :: c2 :: t) = (findIdx delimP (c2 :: t)).map (· + 1) :=
  findIdx_cons_no delimP ':' (c2 :: t) (isPrefixOf_cons2_false ':' ':' [obr] ':' c2 t h)

theorem findIdx_delim_digits : ∀ (ds : List Char), (∀ c ∈ ds, c.isDigit = true) →
    ∀ (rest : List Char), findIdx delimP (ds ++ ':' :: ':' :: obr :: rest) = some ds.length := by
  intro ds
  induction ds with
  | nil =>
      intro _ rest
      show findIdx delimP (':' :: ':' :: obr :: rest) = some 0
      unfold findIdx
      rw [if_pos (by simp [delimP, List.isPrefixOf])]
  | cons d t ih =>
      intro hd rest
      have hdd : d ≠ ':' := ne_of_digit d ':' (hd d (List.mem_cons_self d t)) (by decide)
      rw [List.cons_append,
        findIdx_cons_no delimP d _ (isPrefixOf_cons_false ':' _ d _ hdd),
        ih (fun c hc => hd c (List.mem_cons_of_mem d hc)) rest]
      rfl

theorem findIdx_delim_envPre (x : List Char) :
    findIdx delimP (envPre ++ x) = (findIdx delimP x).map (· + 22) := by
  have he : envPre ++ x
      = 'a' :: '[' :: qt :: obr :: bs :: qt :: 'm' :: 'e' :: 's' :: 's' :: 'a' :: 'g'
        :: 'e' :: bs :: qt :: ':' :: bs :: qt :: 'p' :: 'i' :: 'd' :: '-' :: x := rfl
  rw [he]
  rw [delim_cons_no 'a' _ (by decide)]
  rw [delim_cons_no '[' _ (by decide)]
  rw [delim_cons_no qt _ (by decide)]
  rw [delim_cons_no obr _ (by decide)]
  rw [delim_cons_no bs _ (by decide)]
  rw [delim_cons_no qt _ (by decide)]
  rw [delim_cons_no 'm' _ (by decide)]
  rw [delim_cons_no 'e' _ (by decide)]
  rw [delim_cons_no 's' _ (by decide)]
  rw [delim_cons_no 's' _ (by decide)]
  rw [delim_cons_no 'a' _ (by decide)]
  rw [delim_cons_no 'g' _ (by decide)]
  rw [delim_cons_no 'e' _ (by decide)]
  rw [delim_cons_no bs _ (by decide)]
  rw [delim_cons_no qt _ (by decide)]
  rw [delim_cons2_no bs _ (by decide)]
  rw [delim_cons_no bs _ (by decide)]
  rw [delim_cons_no qt _ (by decide)]
  rw [delim_cons_no 'p' _ (by decide)]
  rw [delim_cons_no 'i' _ (by decide)]
  rw [delim_cons_no 'd' _ (by decide)]
  rw [delim_cons_no '-' _ (by decide)]
  cases hx : findIdx delimP x with
  | none => rfl
  | some n => rfl

theorem findIdx_cbr_cons_no (c : Char) (t : List Char) (h : c ≠ cbr) :
    findIdx [cbr] (c :: t) = (findIdx [cbr] t).map (· + 1) :=
  findIdx_cons_no [cbr] c t (isPrefixOf_cons_false cbr [] c t h)

theorem findIdx_cbr_append : ∀ (a : List Char), (∀ c ∈ a, c ≠ cbr) → ∀ (b : List Char),
    findIdx [cbr] (a ++ b) = (findIdx [cbr] b).map (· + a.length) := by
  intro a
  induction a with
  | nil =>
      intro _ b
      rw [List.nil_append]
      cases hx : findIdx [cbr] b with
      | none => rfl
      | some n => rfl
  | cons c t ih =>
      intro h b
      rw [List.cons_append, findIdx_cbr_cons_no c _ (h c (List.mem_cons_self c t)),
        ih (fun d hd => h d (List.mem_cons_of_mem c hd)) b]
      cases hx : findIdx [cbr] b with
      | none => rfl
      | some n => rfl

theorem findIdx_cbr_at (a : List Char) (h : ∀ c ∈ a, c ≠ cbr) (b : List Char) :
    findIdx [cbr] (a ++ cbr :: b) = some a.length := by
  rw [findIdx_cbr_append a h (cbr :: b)]
  have h0 : findIdx [cbr] (cbr :: b) = some 0 := by
    unfold findIdx
    rw [if_pos (by simp [List.isPrefixOf])]
  rw [h0]
  simp

/-! Helper lemmas: the three-backslash escaping and its removal. -/

theorem esc3_append : ∀ (x y : List Char), esc3 (x ++ y) = esc3 x ++ esc3 y := by
  intro x
  induction x with
  | nil => intro y; rfl
  | cons c t ih =>
      intro y
      by_cases hc : c = qt
      · simp [esc3, hc, ih]
      · simp [esc3, hc, ih]

theorem esc3_no_cbr : ∀ (x : List Char), (∀ c ∈ x, c ≠ cbr) → ∀ c ∈ esc3 x, c ≠ cbr := by
  intro x
  induction x with
  | nil => intro _ c hc; exact absurd hc (List.not_mem_nil c)
  | cons d t ih =>
      intro h c hc
      by_cases hd : d = qt
      · rw [esc3, if_pos hd] at hc
        simp only [List.mem_cons] at hc
        rcases hc with hc | hc | hc | hc | hc
        · subst hc; decide
        · subst hc; decide
        · subst hc; decide
        · subst hc; decide
        · exact ih (fun e he => h e (List.mem_cons_of_mem d he)) c hc
      · rw [esc3, if_neg hd] at hc
        simp only [List.mem_cons] at hc
        rcases hc with hc | hc
        · subst hc; exact h _ (List.mem_cons_self _ _)
        · exact ih (fun e he => h e (List.mem_cons_of_mem d he)) c hc

theorem remove3bs_cons_ne (c : Char) (l : List Char) (h : c ≠ bs) :
    remove3bs (c :: l) = c :: remove3bs l := by
  cases l with
  | nil => rfl
  | cons d1 l1 =>
      cases l1 with
      | nil => rfl
      | cons d2 l2 =>
          show (if c = bs ∧ d1 = bs ∧ d2 = bs then remove3bs l2
            else c :: remove3bs (d1 :: d2 :: l2)) = c :: remove3bs (d1 :: d2 :: l2)
          rw [if_neg (fun hh => h hh.1)]

theorem remove3bs_esc3 : ∀ (x : List Char), (∀ c ∈ x, c ≠ bs) → remove3bs (esc3 x) = x := by
  intro x
  induction x with
  | nil => intro _; rfl
  | cons c t ih =>
      intro h
      by_cases hc : c = qt
      · subst hc
        show remove3bs (bs :: bs :: bs :: qt :: esc3 t) = qt :: t
        rw [show remove3bs (bs :: bs :: bs :: qt :: esc3 t) = remove3bs (qt :: esc3 t) from by
          show (if bs = bs ∧ bs = bs ∧ bs = bs then remove3bs (qt :: esc3 t)
            else bs :: remove3bs (bs :: bs :: qt :: esc3 t)) = remove3bs (qt :: esc3 t)
          rw [if_pos ⟨rfl, rfl, rfl⟩]]
        rw [remove3bs_cons_ne qt _ (by decide),
          ih (fun e he => h e (List.mem_cons_of_mem qt he))]
      · rw [show esc3 (c :: t) = c :: esc3 t from by rw [esc3, if_neg hc],
          remove3bs_cons_ne c _ (h c (List.mem_cons_self c t)),
          ih (fun e he => h e (List.mem_cons_of_mem c he))]

/-! Helper lemmas: the text parser re-reads printed tokens. -/

theorem skipWs_not (c : Char) (l : List Char) (h : isWsC c = false) :
    skipWs (c :: l) = c :: l := by
  show (if isWsC c = true then skipWs l else c :: l) = c :: l
  rw [if_neg (by simp [h])]

theorem pExp_cons (c : Char) (t : List Char) :
    pExp (c :: t)
      = if c = 'e' ∨ c = 'E' then
          (let (sg, t2) : Bool × List Char :=
            match t with
            | [] => (false, [])
            | c2 :: u => if c2 = '-' then (true, u) else if c2 = '+' then (false, u) else (false, c2 :: u)
          let (ds, r) := spanDigits t2
          if ds = [] then none else some (some (sg, ds), r))
        else some (none, c :: t) := rfl

theorem pStrBody_safe : ∀ (v : List Char) (fuel : Nat), v.length < fuel →
    (∀ c ∈ v, safeChar c = true) → ∀ (rest : List Char),
    pStrBody fuel (v ++ qt :: rest) = some (v, rest) := by
  intro v
  induction v with
  | nil =>
      intro fuel hf _ rest
      cases fuel with
      | zero => omega
      | succ f =>
          rw [List.nil_append, pStrBody, if_pos rfl]
  | cons c t ih =>
      intro fuel hf h rest
      cases fuel with
      | zero => omega
      | succ f =>
          obtain ⟨h32, hq, hb, -⟩ := safeChar_spec c (h c (List.mem_cons_self c t))
          rw [List.cons_append, pStrBody]
          rw [if_neg hq, if_neg hb, if_neg (by omega),
            ih f (by simp at hf ⊢; omega) (fun e he => h e (List.mem_cons_of_mem c he)) rest]

theorem spanDigits_append : ∀ (ds : List Char), (∀ c ∈ ds, c.isDigit = true) →
    ∀ (rest : List Char), (∀ c, rest.head? = some c → c.isDigit = false) →
    spanDigits (ds ++ rest) = (ds, rest) := by
  intro ds
  induction ds with
  | nil =>
      intro _ rest hr
      rw [List.nil_append]
      cases rest with
      | nil => rfl
      | cons c t =>
          rw [spanDigits]
          rw [if_neg (by simp [hr c rfl])]
  | cons d t ih =>
      intro h rest hr
      rw [List.cons_append]
      rw [spanDigits]
      rw [if_pos (by simp [h d (List.mem_cons_self d t)]),
        ih (fun e he => h e (List.mem_cons_of_mem d he)) rest hr]

theorem pFrac_no (l : List Char) (h : ∀ c, l.head? = some c → c ≠ '.') :
    pFrac l = some (none, l) := by
  cases l with
  | nil => rfl
  | cons c t =>
      rw [pFrac]
      rw [if_neg (h c rfl)]

theorem pExp_no (l : List Char) (h : ∀ c, l.head? = some c → c ≠ 'e' ∧ c ≠ 'E') :
    pExp l = some (none, l) := by
  cases l with
  | nil => rfl
  | cons c t =>
      rw [pExp_cons]
      rw [if_neg (by
        intro hc
        rcases hc with hc | hc
        · exact (h c rfl).1 hc
        · exact (h c rfl).2 hc)]

theorem printJNum_parts (neg : Bool) (ip : List Char) (fp : Option (List Char))
    (ex : Option (Bool × List Char)) :
    printJNum ⟨neg, ip, fp, ex⟩ = (if neg then ['-'] else []) ++ ip ++ fpPart fp ++ exPart ex := by
  cases fp <;> cases ex <;> rfl

theorem wfJNum_ip (n : JNum) (h : wfJNum n = true) :
    n.ip ≠ [] ∧ (∀ c ∈ n.ip, c.isDigit = true)
      ∧ ¬(1 < n.ip.length ∧ n.ip.head? = some '0') := by
  obtain ⟨neg, ip, fp, ex⟩ := n
  simp only [wfJNum, Bool.and_eq_true] at h
  obtain ⟨⟨⟨⟨h1, h2⟩, h3⟩, -⟩, -⟩ := h
  refine ⟨by simpa using h1, by simpa using h2, ?_⟩
  rintro ⟨hl, hh⟩
  dsimp only at hl hh
  rw [Bool.or_eq_true] at h3
  rcases h3 with h3 | h3
  · simp only [decide_eq_true_eq] at h3
    omega
  · exact bne_iff_ne.mp h3 hh

theorem wfJNum_fp (n : JNum) (h : wfJNum n = true) (ds : List Char)
    (hds : n.fp = some ds) : ds ≠ [] ∧ ∀ c ∈ ds, c.isDigit = true := by
  obtain ⟨neg, ip, fp, ex⟩ := n
  subst hds
  simp only [wfJNum, Bool.and_eq_true] at h
  obtain ⟨⟨-, h4⟩, -⟩ := h
  exact ⟨by simpa using h4.1, by simpa using h4.2⟩

theorem wfJNum_ex (n : JNum) (h : wfJNum n = true) (sg : Bool) (ds : List Char)
    (hds : n.ex = some (sg, ds)) : ds ≠ [] ∧ ∀ c ∈ ds, c.isDigit = true := by
  obtain ⟨neg, ip, fp, ex⟩ := n
  subst hds
  simp only [wfJNum, Bool.and_eq_true] at h
  obtain ⟨-, h5⟩ := h
  exact ⟨by simpa using h5.1, by simpa using h5.2⟩

theorem fpex_head_nondigit (fp : Option (List Char)) (ex : Option (Bool × List Char))
    (rest : List Char) (hrest : ∀ c, rest.head? = some c → c.isDigit = false) :
    ∀ c, (fpPart fp ++ (exPart ex ++ rest)).head? = some c → c.isDigit = false := by
  cases fp with
  | some ds =>
      intro c hc
      simp only [fpPart, List.cons_append, List.head?_cons, Option.some.injEq] at hc
      subst hc
      decide
  | none =>
      cases ex with
      | some p =>
          obtain ⟨sg, ds⟩ := p
          intro c hc
          simp only [fpPart, exPart, List.nil_append, List.cons_append, List.head?_cons,
            Option.some.injEq] at hc
          subst hc
          decide
      | none =>
          intro c hc
          simp only [fpPart, exPart, List.nil_append] at hc
          exact hrest c hc

theorem exr_head_nondigit (ex : Option (Bool × List Char)) (rest : List Char)
    (hrest : ∀ c, rest.head? = some c → c.isDigit = false) :
    ∀ c, (exPart ex ++ rest).head? = some c → c.isDigit = false := by
  cases ex with
  | some p =>
      obtain ⟨sg, ds⟩ := p
      intro c hc
      simp only [exPart, List.cons_append, List.head?_cons, Option.some.injEq] at hc
      subst hc
      decide
  | none =>
      intro c hc
      simp only [exPart, List.nil_append] at hc
      exact hrest c hc

theorem pNumTail_eq (neg : Bool) (cs1 : List Char) :
    (match spanDigits cs1 with
     | ([], _) => none
     | (ip, cs2) =>
         if 1 < ip.length ∧ ip.head? = some '0' then none
         else
           match pFrac cs2 with
           | none => none
           | some (fp, cs3) =>
               match pExp cs3 with
               | none => none
               | some (ex, cs4) => some (Json.num ⟨neg, ip, fp, ex⟩, cs4))
      = pNumTail neg cs1 := by
  rcases hsp : spanDigits cs1 with ⟨ip, cs2⟩
  simp only [pNumTail, hsp]
  cases ip with
  | nil => rfl
  | cons d dt =>
      rw [if_neg (List.cons_ne_nil d dt)]

theorem pNum_cons (c : Char) (t : List Char) :
    pNum (c :: t) = if c = '-' then pNumTail true t else pNumTail false (c :: t) := by
  by_cases hc : c = '-'
  · subst hc
    rw [if_pos rfl, ← pNumTail_eq]
    rfl
  · rw [if_neg hc, ← pNumTail_eq]
    simp only [pNum]
    rw [if_neg hc]

theorem pFrac_print (fp : Option (List Char))
    (hfp : ∀ ds, fp = some ds → ds ≠ [] ∧ ∀ c ∈ ds, c.isDigit = true)
    (Y : List Char) (hY : ∀ c, Y.head? = some c → c.isDigit = false ∧ c ≠ '.') :
    pFrac (fpPart fp ++ Y) = some (fp, Y) := by
  cases fp with
  | none =>
      simp only [fpPart, List.nil_append]
      exact pFrac_no Y (fun c hc => (hY c hc).2)
  | some ds =>
      obtain ⟨hds0, hdsd⟩ := hfp ds rfl
      simp only [fpPart, List.cons_append]
      rw [pFrac, if_pos rfl, spanDigits_append ds hdsd Y (fun c hc => (hY c hc).1)]
      show (if ds = [] then none else some (some ds, Y)) = some (some ds, Y)
      rw [if_neg hds0]

theorem pExp_print (ex : Option (Bool × List Char))
    (hex : ∀ sg ds, ex = some (sg, ds) → ds ≠ [] ∧ ∀ c ∈ ds, c.isDigit = true)
    (rest : List Char)
    (hrest : ∀ c, rest.head? = some c → c.isDigit = false ∧ c ≠ 'e' ∧ c ≠ 'E') :
    pExp (exPart ex ++ rest) = some (ex, rest) := by
  have hr : ∀ c, rest.head? = some c → c.isDigit = false := fun c hc => (hrest c hc).1
  cases ex with
  | none =>
      simp only [exPart, List.nil_append]
      exact pExp_no rest (fun c hc => ⟨(hrest c hc).2.1, (hrest c hc).2.2⟩)
  | some p =>
      obtain ⟨sg, ds⟩ := p
      obtain ⟨hds0, hdsd⟩ := hex sg ds rfl
      cases sg with
      | true =>
          show (match spanDigits (ds ++ rest) with
                | (ds2, r) => if ds2 = [] then none else some (some (true, ds2), r))
            = some (some (true, ds), rest)
          rw [spanDigits_append ds hdsd rest hr]
          show (if ds = [] then none else some (some (true, ds), rest))
            = some (some (true, ds), rest)
          rw [if_neg hds0]
      | false =>
          cases ds with
          | nil => exact absurd rfl hds0
          | cons e et =>
              have he : e.isDigit = true := hdsd e (List.mem_cons_self e et)
              show (match (if e = '-' then (true, et ++ rest)
                           else if e = '+' then (false, et ++ rest)
                           else (false, e :: (et ++ rest))) with
                    | (sg, t2) =>
                        match spanDigits t2 with
                        | (ds2, r) => if ds2 = [] then none else some (some (sg, ds2), r))
                = some (some (false, e :: et), rest)
              rw [if_neg (ne_of_digit e '-' he (by decide)),
                if_neg (ne_of_digit e '+' he (by decide))]
              show (match spanDigits (e :: (et ++ rest)) with
                    | (ds2, r) => if ds2 = [] then none else some (some (false, ds2), r))
                = some (some (false, e :: et), rest)
              rw [show e :: (et ++ rest) = (e :: et) ++ rest from rfl,
                spanDigits_append (e :: et) hdsd rest hr]
              show (if (e :: et) = [] then none else some (some (false, e :: et), rest))
                = some (some (false, e :: et), rest)
              rw [if_neg (List.cons_ne_nil e et)]

theorem pNumTail_print (neg : Bool) (ip : List Char) (fp : Option (List Char))
    (ex : Option (Bool × List Char))
    (hip : ip ≠ []) (hipd : ∀ c ∈ ip, c.isDigit = true)
    (hlz : ¬(1 < ip.length ∧ ip.head? = some '0'))
    (hfp : ∀ ds, fp = some ds → ds ≠ [] ∧ ∀ c ∈ ds, c.isDigit = true)
    (hex : ∀ sg ds, ex = some (sg, ds) → ds ≠ [] ∧ ∀ c ∈ ds, c.isDigit = true)
    (rest : List Char)
    (hrest : ∀ c, rest.head? = some c → c.isDigit = false ∧ c ≠ '.' ∧ c ≠ 'e' ∧ c ≠ 'E') :
    pNumTail neg (ip ++ (fpPart fp ++ (exPart ex ++ rest)))
      = some (.num ⟨neg, ip, fp, ex⟩, rest) := by
  have hY : ∀ c, (exPart ex ++ rest).head? = some c → c.isDigit = false ∧ c ≠ '.' := by
    cases ex with
    | some p =>
        obtain ⟨sg, ds⟩ := p
        intro c hc
        simp only [exPart, List.cons_append, List.head?_cons, Option.some.injEq] at hc
        subst hc
        exact ⟨by decide, by decide⟩
    | none =>
        intro c hc
        simp only [exPart, List.nil_append] at hc
        exact ⟨(hrest c hc).1, (hrest c hc).2.1⟩
  have hd : ∀ c, (fpPart fp ++ (exPart ex ++ rest)).head? = some c → c.isDigit = false :=
    fpex_head_nondigit fp ex rest (fun c hc => (hrest c hc).1)
  simp only [pNumTail]
  rw [spanDigits_append ip hipd _ hd]
  dsimp only
  rw [if_neg hip, if_neg hlz, pFrac_print fp hfp _ hY]
  show (match pExp (exPart ex ++ rest) with
        | none => none
        | some (ex2, cs4) => some (Json.num ⟨neg, ip, fp, ex2⟩, cs4)) = _
  rw [pExp_print ex hex rest
    (fun c hc => ⟨(hrest c hc).1, (hrest c hc).2.2.1, (hrest c hc).2.2.2⟩)]

theorem pNum_print (n : JNum) (hwf : wfJNum n = true) (rest : List Char)
    (hrest : ∀ c, rest.head? = some c → c.isDigit = false ∧ c ≠ '.' ∧ c ≠ 'e' ∧ c ≠ 'E') :
    pNum (printJNum n ++ rest) = some (.num n, rest) := by
  obtain ⟨neg, ip, fp, ex⟩ := n
  obtain ⟨hip, hipd, hlz⟩ := wfJNum_ip ⟨neg, ip, fp, ex⟩ hwf
  have hfp := wfJNum_fp ⟨neg, ip, fp, ex⟩ hwf
  have hex := wfJNum_ex ⟨neg, ip, fp, ex⟩ hwf
  rw [printJNum_parts, List.append_assoc, List.append_assoc, List.append_assoc]
  cases neg with
  | true =>
      show pNum ('-' :: (ip ++ (fpPart fp ++ (exPart ex ++ rest)))) = _
      rw [pNum_cons, if_pos rfl]
      exact pNumTail_print true ip fp ex hip hipd hlz hfp hex rest hrest
  | false =>
      cases ip with
      | nil => exact absurd rfl hip
      | cons d dt =>
          have hd : d.isDigit = true := hipd d (List.mem_cons_self d dt)
          show pNum (d :: (dt ++ (fpPart fp ++ (exPart ex ++ rest)))) = _
          rw [pNum_cons, if_neg (ne_of_digit d '-' hd (by decide))]
          rw [show d :: (dt ++ (fpPart fp ++ (exPart ex ++ rest)))
              = (d :: dt) ++ (fpPart fp ++ (exPart ex ++ rest)) from rfl]
          exact pNumTail_print false (d :: dt) fp ex hip hipd hlz hfp hex rest hrest

theorem pV_succ (f : Nat) (cs0 : List Char) :
    pV (f + 1) cs0 = match skipWs cs0 with
      | [] => none
      | c :: rest => pVcore f c rest := by
  rw [pV]
  cases hs : skipWs cs0 with
  | nil => rfl
  | cons c rest => rfl

theorem pV_cons (f : Nat) (c : Char) (X : List Char) (h : isWsC c = false) :
    pV (f + 1) (c :: X) = pVcore f c X := by
  rw [pV_succ, skipWs_not c X h]

theorem pVcore_num (f : Nat) (c : Char) (X : List Char) (hd : c.isDigit = true) :
    pVcore f c X = pNum (c :: X) := by
  simp only [pVcore]
  rw [if_neg (ne_of_digit c qt hd (by decide)), if_neg (ne_of_digit c obr hd (by decide)),
    if_neg (ne_of_digit c '[' hd (by decide)), if_neg (ne_of_digit c 't' hd (by decide)),
    if_neg (ne_of_digit c 'f' hd (by decide)), if_neg (ne_of_digit c 'n' hd (by decide)),
    if_pos (Or.inr hd)]

theorem pVcore_obr (f : Nat) (X : List Char) :
    pVcore f obr X = match skipWs X with
      | [] => none
      | c2 :: r2 => pVobj f c2 r2 := by
  simp only [pVcore]
  rw [if_neg (show ¬(obr = qt) by decide), if_pos trivial]
  cases hs : skipWs X with
  | nil => rfl
  | cons c2 r2 => rfl

theorem escJsonChar_safe (c : Char) (h : safeChar c = true) : escJsonChar c = [c] := by
  obtain ⟨h32, hq, hb, -⟩ := safeChar_spec c h
  simp only [escJsonChar]
  rw [if_neg hq, if_neg hb,
    if_neg (fun he => by rw [he] at h32; exact absurd h32 (by decide)),
    if_neg (fun he => by rw [he] at h32; exact absurd h32 (by decide)),
    if_neg (fun he => by rw [he] at h32; exact absurd h32 (by decide)),
    if_neg (fun he => by rw [he] at h32; exact absurd h32 (by decide)),
    if_neg (fun he => by rw [he] at h32; exact absurd h32 (by decide)),
    if_neg (by omega)]

theorem flatten_esc_safe : ∀ (s : List Char), safeStr s = true →
    (s.map escJsonChar).flatten = s := by
  intro s
  induction s with
  | nil => intro _; rfl
  | cons c t ih =>
      intro h
      simp only [safeStr, List.all_cons, Bool.and_eq_true] at h
      simp only [List.map_cons, List.flatten_cons, escJsonChar_safe c h.1, ih h.2]
      rfl

theorem printStr_safe (s : List Char) (h : safeStr s = true) :
    printStr s = qt :: (s ++ [qt]) := by
  simp only [printStr, flatten_esc_safe s h, List.cons_append]

theorem safeStr_mem (s : List Char) (h : safeStr s = true) : ∀ c ∈ s, safeChar c = true := by
  simpa [safeStr] using h

theorem expectLit_print (lit rest : List Char) : expectLit lit (lit ++ rest) = some rest := by
  rw [expectLit, if_pos (List.isPrefixOf_iff_prefix.mpr (List.prefix_append lit rest)),
    List.drop_left]

theorem pV_printNum (f : Nat) (n : JNum) (hn : wfJNum n = true) (rest : List Char)
    (hrest : ∀ c, rest.head? = some c → c.isDigit = false ∧ c ≠ '.' ∧ c ≠ 'e' ∧ c ≠ 'E') :
    pV (f + 1) (printJNum n ++ rest) = some (.num n, rest) := by
  obtain ⟨neg, ip, fp, ex⟩ := n
  obtain ⟨hip, hipd, -⟩ := wfJNum_ip ⟨neg, ip, fp, ex⟩ hn
  have hres := pNum_print ⟨neg, ip, fp, ex⟩ hn rest hrest
  rw [printJNum_parts, List.append_assoc, List.append_assoc, List.append_assoc] at hres ⊢
  cases neg with
  | true =>
      show pV (f + 1) ('-' :: (ip ++ (fpPart fp ++ (exPart ex ++ rest)))) = _
      rw [pV_cons f '-' _ (by decide)]
      show pNum ('-' :: (ip ++ (fpPart fp ++ (exPart ex ++ rest)))) = _
      exact hres
  | false =>
      cases ip with
      | nil => exact absurd rfl hip
      | cons d dt =>
          have hd : d.isDigit = true := hipd d (List.mem_cons_self d dt)
          show pV (f + 1) (d :: (dt ++ (fpPart fp ++ (exPart ex ++ rest)))) = _
          rw [pV_cons f d _ (isWsC_of_digit d hd), pVcore_num f d _ hd]
          exact hres

theorem pV_printStr (f : Nat) (s : List Char) (hs : safeStr s = true) (rest : List Char) :
    pV (f + 1) (printStr s ++ rest) = some (.str s, rest) := by
  rw [printStr_safe s hs,
    show (qt :: (s ++ [qt])) ++ rest = qt :: (s ++ qt :: rest) by simp,
    pV_cons f qt _ (by decide)]
  simp only [pVcore]
  rw [if_pos trivial,
    pStrBody_safe s ((s ++ qt :: rest).length + 1)
      (by simp only [List.length_append, List.length_cons]; omega)
      (safeStr_mem s hs) rest]

theorem pV_printSc (f : Nat) (v : Json) (hv : wfVal v = true) (rest : List Char)
    (hrest : ∀ c, rest.head? = some c → c.isDigit = false ∧ c ≠ '.' ∧ c ≠ 'e' ∧ c ≠ 'E') :
    pV (f + 1) (printSc v ++ rest) = some (v, rest) := by
  cases v with
  | null =>
      rw [show printSc Json.null ++ rest = 'n' :: ('u' :: 'l' :: 'l' :: rest) from rfl,
        pV_cons f 'n' _ (by decide)]
      simp only [pVcore]
      rw [if_neg (show ¬('n' = qt) by decide), if_neg (show ¬('n' = obr) by decide),
        if_neg (show ¬('n' = '[') by decide), if_neg (show ¬('n' = 't') by decide),
        if_neg (show ¬('n' = 'f') by decide), if_pos trivial,
        show ('u' :: 'l' :: 'l' :: rest) = ['u', 'l', 'l'] ++ rest from rfl,
        expectLit_print, Option.map_some']
  | jbool b =>
      cases b with
      | true =>
          rw [show printSc (Json.jbool true) ++ rest = 't' :: ('r' :: 'u' :: 'e' :: rest) from rfl,
            pV_cons f 't' _ (by decide)]
          simp only [pVcore]
          rw [if_neg (show ¬('t' = qt) by decide), if_neg (show ¬('t' = obr) by decide),
            if_neg (show ¬('t' = '[') by decide), if_pos trivial,
            show ('r' :: 'u' :: 'e' :: rest) = ['r', 'u', 'e'] ++ rest from rfl,
            expectLit_print, Option.map_some']
      | false =>
          rw [show printSc (Json.jbool false) ++ rest
              = 'f' :: ('a' :: 'l' :: 's' :: 'e' :: rest) from rfl,
            pV_cons f 'f' _ (by decide)]
          simp only [pVcore]
          rw [if_neg (show ¬('f' = qt) by decide), if_neg (show ¬('f' = obr) by decide),
            if_neg (show ¬('f' = '[') by decide), if_neg (show ¬('f' = 't') by decide),
            if_pos trivial,
            show ('a' :: 'l' :: 's' :: 'e' :: rest) = ['a', 'l', 's', 'e'] ++ rest from rfl,
            expectLit_print, Option.map_some']
  | arr l => simp [wfVal] at hv
  | obj l => simp [wfVal] at hv
  | str s =>
      have hs : safeStr s = true := by simpa [wfVal] using hv
      show pV (f + 1) (printStr s ++ rest) = _
      exact pV_printStr f s hs rest
  | num n =>
      have hn : wfJNum n = true := by simpa [wfVal] using hv
      show pV (f + 1) (printJNum n ++ rest) = _
      exact pV_printNum f n hn rest hrest

theorem pV_printObj : ∀ (kvs : List (List Char × Json)) (f : Nat), kvs.length + 1 ≤ f →
    (∀ kv ∈ kvs, kv.1 ≠ [] ∧ safeStr kv.1 = true ∧ wfVal kv.2 = true) →
    ∀ (rest : List Char),
    pV (f + 1) (obr :: (printEntryList kvs ++ cbr :: rest)) = some (.obj kvs, rest) := by
  intro kvs
  induction kvs with
  | nil =>
      intro f hf hkv rest
      rw [show obr :: (printEntryList [] ++ cbr :: rest) = obr :: (cbr :: rest) from rfl,
        pV_cons f obr _ (by decide), pVcore_obr, skipWs_not cbr rest (by decide)]
      dsimp only
      simp only [pVobj]
      rw [if_pos trivial]
  | cons kv t ih =>
      obtain ⟨k, v⟩ := kv
      intro f hf hkv rest
      obtain ⟨hk0, hks, hv⟩ := hkv (k, v) (List.mem_cons_self _ _)
      cases f with
      | zero => omega
      | succ f2 =>
          cases t with
          | nil =>
              have hone : obr :: (printEntryList [(k, v)] ++ cbr :: rest)
                  = obr :: (qt :: (k ++ qt :: (':' :: (printSc v ++ cbr :: rest)))) := by
                rw [show printEntryList [(k, v)] = printStr k ++ ':' :: printSc v from rfl,
                  printStr_safe k hks]
                simp [List.cons_append, List.append_assoc, List.singleton_append]
              rw [hone, pV_cons (f2 + 1) obr _ (by decide), pVcore_obr,
                skipWs_not qt _ (by decide)]
              dsimp only
              simp only [pVobj]
              rw [if_neg (show ¬(qt = cbr) by decide), if_pos trivial,
                pStrBody_safe k _ (by simp only [List.length_append, List.length_cons]; omega)
                  (safeStr_mem k hks) _]
              dsimp only
              rw [skipWs_not ':' _ (by decide)]
              split
              · rename_i r4 heq
                injection heq with h1 h2
                subst h2
                rw [pV_printSc f2 v hv (cbr :: rest)
                  (fun c hc => by
                    simp only [List.head?_cons, Option.some.injEq] at hc
                    subst hc
                    exact ⟨by decide, by decide, by decide, by decide⟩)]
                dsimp only
                rw [skipWs_not cbr rest (by decide)]
                split
                · rename_i r6 heq2
                  injection heq2 with h3 h4
                  exact absurd h3 (by decide)
                · rename_i c9 r9 heq2
                  injection heq2 with h3 h4
                  subst h3
                  subst h4
                  simp
                · rename_i heq2
                  exact List.noConfusion heq2
              · rename_i hne
                exact (hne _ rfl).elim
          | cons e2 t2 =>
              obtain ⟨k2, v2⟩ := e2
              obtain ⟨hk20, hk2s, hv2⟩ :=
                hkv (k2, v2) (List.mem_cons_of_mem _ (List.mem_cons_self _ _))
              have hone : obr :: (printEntryList ((k, v) :: (k2, v2) :: t2) ++ cbr :: rest)
                  = obr :: (qt :: (k ++ qt :: (':' :: (printSc v
                      ++ ',' :: (printEntryList ((k2, v2) :: t2) ++ cbr :: rest))))) := by
                rw [show printEntryList ((k, v) :: (k2, v2) :: t2)
                    = printStr k ++ ':' :: printSc v ++ ',' :: printEntryList ((k2, v2) :: t2)
                    from rfl,
                  printStr_safe k hks]
                simp [List.cons_append, List.append_assoc, List.singleton_append]
              rw [hone, pV_cons (f2 + 1) obr _ (by decide), pVcore_obr,
                skipWs_not qt _ (by decide)]
              dsimp only
              simp only [pVobj]
              rw [if_neg (show ¬(qt = cbr) by decide), if_pos trivial,
                pStrBody_safe k _ (by simp only [List.length_append, List.length_cons]; omega)
                  (safeStr_mem k hks) _]
              dsimp only
              rw [skipWs_not ':' _ (by decide)]
              obtain ⟨Z, hZ⟩ : ∃ Z, printEntryList ((k2, v2) :: t2) ++ cbr :: rest = qt :: Z := by
                cases t2 with
                | nil =>
                    refine ⟨(k2 ++ [qt]) ++ (':' :: printSc v2 ++ cbr :: rest), ?_⟩
                    rw [show printEntryList [(k2, v2)] = printStr k2 ++ ':' :: printSc v2
                        from rfl,
                      printStr_safe k2 hk2s]
                    simp [List.cons_append, List.append_assoc, List.singleton_append]
                | cons e3 t3 =>
                    refine ⟨(k2 ++ [qt]) ++ (':' :: printSc v2
                        ++ ',' :: printEntryList (e3 :: t3) ++ cbr :: rest), ?_⟩
                    rw [show printEntryList ((k2, v2) :: e3 :: t3)
                        = printStr k2 ++ ':' :: printSc v2 ++ ',' :: printEntryList (e3 :: t3)
                        from rfl,
                      printStr_safe k2 hk2s]
                    simp [List.cons_append, List.append_assoc, List.singleton_append]
              split
              · rename_i r4 heq
                injection heq with h1 h2
                subst h2
                rw [pV_printSc f2 v hv _
                  (fun c hc => by
                    simp only [List.head?_cons, Option.some.injEq] at hc
                    subst hc
                    exact ⟨by decide, by decide, by decide, by decide⟩)]
                dsimp only
                rw [skipWs_not ',' _ (by decide)]
                split
                · rename_i r6 heq2
                  injection heq2 with h3 h4
                  subst h4
                  rw [hZ, skipWs_not qt Z (by decide)]
                  dsimp only
                  rw [if_pos (show (qt : Char) = qt from rfl)]
                  rw [← hZ,
                    ih f2 (by simp only [List.length_cons] at hf ⊢; omega)
                      (fun kv2 hkv2 => hkv kv2 (List.mem_cons_of_mem _ hkv2)) rest]
                · rename_i c9 r9 hnc heq2
                  injection heq2 with h3 h4
                  exact (hnc h3.symm).elim
                · rename_i heq2
                  exact List.noConfusion heq2
              · rename_i hne
                exact (hne _ rfl).elim

theorem printEntryList_len : ∀ kvs : List (List Char × Json),
    kvs.length ≤ (printEntryList kvs).length := by
  intro kvs
  induction kvs with
  | nil => simp [printEntryList]
  | cons kv t ih =>
      obtain ⟨k, v⟩ := kv
      cases t with
      | nil =>
          simp [printEntryList, printStr]
      | cons e2 t2 =>
          simp only [printEntryList, printStr, List.length_cons, List.length_append,
            List.cons_append] at ih ⊢
          omega

theorem parseJson_printObj (kvs : List (List Char × Json))
    (hkv : ∀ kv ∈ kvs, kv.1 ≠ [] ∧ safeStr kv.1 = true ∧ wfVal kv.2 = true) :
    parseJson (printObj kvs) = some (.obj kvs) := by
  simp only [parseJson]
  rw [show printObj kvs = obr :: (printEntryList kvs ++ cbr :: ([] : List Char)) from rfl,
    pV_printObj kvs _
      (by simpa using Nat.succ_le_succ (Nat.le_succ_of_le (printEntryList_len kvs))) hkv []]
  rfl

theorem wfJNum_printNat (n : Nat) : wfJNum ⟨false, printNat n, none, none⟩ = true := by
  have h1 := printNat_all_digits n
  have h2 : printNat n ≠ [] := natDigsAux_ne_nil 10 (n + 1) n (by omega)
  have h3 : (printNat n).length ≤ 1 ∨ (printNat n).head? ≠ some '0' := by
    by_cases hn : n = 0
    · subst hn
      left
      decide
    · right
      exact natDigsAux_head_ne_zero (n + 1) n (Nat.lt_succ_self n) (by omega)
  rcases h3 with h3 | h3 <;> simp [wfJNum, h1, h2, h3]

theorem dU64_printNat (n : Nat) (h : n < 2 ^ 64) :
    dU64 (.num ⟨false, printNat n, none, none⟩) = .ok n := by
  simp only [dU64]
  rw [asU64_nat _ (by rw [printNat_val]; exact h), printNat_val]

theorem safeChar_of_digit (c : Char) (h : c.isDigit = true) : safeChar c = true := by
  have h32 : 32 ≤ c.toNat := by
    simp only [Char.isDigit, Bool.and_eq_true, decide_eq_true_eq] at h
    have hle : ('0' : Char).toNat ≤ c.toNat := h.1
    simpa using hle.trans' (by decide)
  simp only [safeChar, Bool.and_eq_true, bne_iff_ne, ne_eq, decide_eq_true_eq]
  exact ⟨⟨⟨h32, ne_of_digit c qt h (by decide)⟩, ne_of_digit c bs h (by decide)⟩,
    ne_of_digit c cbr h (by decide)⟩

theorem safeStr_of_digits (l : List Char) (h : l.all (·.isDigit) = true) :
    safeStr l = true := by
  simp only [safeStr, List.all_eq_true] at h ⊢
  exact fun c hc => safeChar_of_digit c (h c hc)

theorem wfSnapshot_parts (s : Snapshot) (h : wfSnapshot s = true) :
    s.pid.data ≠ [] ∧ s.pid.data.all (·.isDigit) = true
      ∧ (∀ v, s.last_dir = some v → safeStr v.data = true)
      ∧ wfJNum s.last_numeric = true
      ∧ safeStr s.last.data = true
      ∧ safeStr s.bid.data = true
      ∧ safeStr s.ask.data = true
      ∧ safeStr s.high.data = true
      ∧ safeStr s.low.data = true
      ∧ safeStr s.last_close.data = true
      ∧ safeStr s.pc.data = true
      ∧ safeStr s.pcp.data = true
      ∧ safeStr s.pc_col.data = true
      ∧ safeStr s.turnover.data = true
      ∧ s.turnover_numeric < 2 ^ 32
      ∧ safeStr s.time.data = true
      ∧ s.timestamp < 2 ^ 64 := by
  simp only [wfSnapshot, Bool.and_eq_true, decide_eq_true_eq] at h
  obtain ⟨⟨⟨⟨⟨⟨⟨⟨⟨⟨⟨⟨⟨⟨⟨⟨h1, h2⟩, h3⟩, h4⟩, h5⟩, h6⟩, h7⟩, h8⟩, h9⟩, h10⟩, h11⟩, h12⟩, h13⟩, h14⟩, h15⟩, h16⟩, h17⟩ := h
  refine ⟨by simpa using h1, h2, ?_, h4, h5, h6, h7, h8, h9, h10, h11, h12, h13, h14, h15,
    h16, h17⟩
  intro v hv
  rw [hv] at h3
  simpa using h3

theorem snapEntries_wf (s : Snapshot) (h : wfSnapshot s = true) :
    ∀ kv ∈ snapEntries s, kv.1 ≠ [] ∧ safeStr kv.1 = true ∧ wfVal kv.2 = true := by
  obtain ⟨hp0, hpd, hld, hln, hla, hbi, hak, hhi, hlo, hlc, hpc, hpcp, hpcc, htov, htn, hti,
    hts⟩ := wfSnapshot_parts s h
  intro kv hkv
  simp only [snapEntries, List.mem_cons, List.not_mem_nil, or_false] at hkv
  rcases hkv with hk | hk | hk | hk | hk | hk | hk | hk | hk | hk | hk | hk | hk | hk | hk | hk
  · subst hk
    dsimp only
    exact ⟨by decide, by decide, by simpa [wfVal] using safeStr_of_digits _ hpd⟩
  · subst hk
    dsimp only
    refine ⟨by decide, by decide, ?_⟩
    cases hd : s.last_dir with
    | none => decide
    | some v => simpa [wfVal] using hld v hd
  · subst hk
    dsimp only
    exact ⟨by decide, by decide, by simpa [wfVal] using hln⟩
  · subst hk
    dsimp only
    exact ⟨by decide, by decide, by simpa [wfVal] using hla⟩
  · subst hk
    dsimp only
    exact ⟨by decide, by decide, by simpa [wfVal] using hbi⟩
  · subst hk
    dsimp only
    exact ⟨by decide, by decide, by simpa [wfVal] using hak⟩
  · subst hk
    dsimp only
    exact ⟨by decide, by decide, by simpa [wfVal] using hhi⟩
  · subst hk
    dsimp only
    exact ⟨by decide, by decide, by simpa [wfVal] using hlo⟩
  · subst hk
    dsimp only
    exact ⟨by decide, by decide, by simpa [wfVal] using hlc⟩
  · subst hk
    dsimp only
    exact ⟨by decide, by decide, by simpa [wfVal] using hpc⟩
  · subst hk
    dsimp only
    exact ⟨by decide, by decide, by simpa [wfVal] using hpcp⟩
  · subst hk
    dsimp only
    exact ⟨by decide, by decide, by simpa [wfVal] using hpcc⟩
  · subst hk
    dsimp only
    exact ⟨by decide, by decide, by simpa [wfVal] using htov⟩
  · subst hk
    dsimp only
    exact ⟨by decide, by decide, by simpa [wfVal] using wfJNum_printNat s.turnover_numeric⟩
  · subst hk
    dsimp only
    exact ⟨by decide, by decide, by simpa [wfVal] using hti⟩
  · subst hk
    dsimp only
    exact ⟨by decide, by decide, by simpa [wfVal] using wfJNum_printNat s.timestamp⟩

theorem dSnapshot_print (s : Snapshot) (hwf : wfSnapshot s = true) :
    dSnapshot (.obj (snapEntries s)) = .ok s := by
  obtain ⟨-, -, -, -, -, -, -, -, -, -, -, -, -, -, htn, -, hts⟩ := wfSnapshot_parts s hwf
  obtain ⟨⟨pid⟩, ld, ln, ⟨la⟩, ⟨bi⟩, ⟨ak⟩, ⟨hg⟩, ⟨lo⟩, ⟨lc⟩, ⟨pcv⟩, ⟨pcpv⟩, ⟨pccv⟩, ⟨tov⟩,
    tn, ⟨ti⟩, ts⟩ := s
  cases ld with
  | none =>
          show List.foldlM stepEntry ({} : PState)
              (snapEntries (⟨String.mk pid, none, ln, String.mk la, String.mk bi, String.mk ak, String.mk hg, String.mk lo, String.mk lc, String.mk pcv, String.mk pcpv, String.mk pccv, String.mk tov, tn, String.mk ti, ts⟩ : Snapshot)) >>= finalize
            = Except.ok (⟨String.mk pid, none, ln, String.mk la, String.mk bi, String.mk ak, String.mk hg, String.mk lo, String.mk lc, String.mk pcv, String.mk pcpv, String.mk pccv, String.mk tov, tn, String.mk ti, ts⟩ : Snapshot)
          rw [show List.foldlM stepEntry ({} : PState)
                (snapEntries (⟨String.mk pid, none, ln, String.mk la, String.mk bi, String.mk ak, String.mk hg, String.mk lo, String.mk lc, String.mk pcv, String.mk pcpv, String.mk pccv, String.mk tov, tn, String.mk ti, ts⟩ : Snapshot))
              = (deserialize_u32_or_string (Json.num ⟨false, printNat tn, none, none⟩)).map
                  (fun x => (⟨some pid, some none, some ln, some la, some bi, some ak, some hg, some lo, some lc, some pcv, some pcpv, some pccv, some tov, some x, none, none⟩ : PState))
                >>= fun st => List.foldlM stepEntry st
                  [("time".data, Json.str ti), ("timestamp".data, Json.num ⟨false, printNat ts, none, none⟩)] from rfl,
            deser_u32_int tn htn]
          rw [show ((Except.ok tn).map (fun x => (⟨some pid, some none, some ln, some la, some bi, some ak, some hg, some lo, some lc, some pcv, some pcpv, some pccv, some tov, some x, none, none⟩ : PState))
                >>= fun st => List.foldlM stepEntry st
                  [("time".data, Json.str ti), ("timestamp".data, Json.num ⟨false, printNat ts, none, none⟩)])
              = (dU64 (Json.num ⟨false, printNat ts, none, none⟩)).map
                  (fun x => (⟨some pid, some none, some ln, some la, some bi, some ak, some hg, some lo, some lc, some pcv, some pcpv, some pccv, some tov, some tn, some ti, some x⟩ : PState))
                >>= fun st => List.foldlM stepEntry st
                  ([] : List (List Char × Json)) from rfl,
            dU64_printNat ts hts]
          rfl
  | some lds =>
          obtain ⟨ldd⟩ := lds
          show List.foldlM stepEntry ({} : PState)
              (snapEntries (⟨String.mk pid, some (String.mk ldd), ln, String.mk la, String.mk bi, String.mk ak, String.mk hg, String.mk lo, String.mk lc, String.mk pcv, String.mk pcpv, String.mk pccv, String.mk tov, tn, String.mk ti, ts⟩ : Snapshot)) >>= finalize
            = Except.ok (⟨String.mk pid, some (String.mk ldd), ln, String.mk la, String.mk bi, String.mk ak, String.mk hg, String.mk lo, String.mk lc, String.mk pcv, String.mk pcpv, String.mk pccv, String.mk tov, tn, String.mk ti, ts⟩ : Snapshot)
          rw [show List.foldlM stepEntry ({} : PState)
                (snapEntries (⟨String.mk pid, some (String.mk ldd), ln, String.mk la, String.mk bi, String.mk ak, String.mk hg, String.mk lo, String.mk lc, String.mk pcv, String.mk pcpv, String.mk pccv, String.mk tov, tn, String.mk ti, ts⟩ : Snapshot))
              = (deserialize_u32_or_string (Json.num ⟨false, printNat tn, none, none⟩)).map
                  (fun x => (⟨some pid, some (some ldd), some ln, some la, some bi, some ak, some hg, some lo, some lc, some pcv, some pcpv, some pccv, some tov, some x, none, none⟩ : PState))
                >>= fun st => List.foldlM stepEntry st
                  [("time".data, Json.str ti), ("timestamp".data, Json.num ⟨false, printNat ts, none, none⟩)] from rfl,
            deser_u32_int tn htn]
          rw [show ((Except.ok tn).map (fun x => (⟨some pid, some (some ldd), some ln, some la, some bi, some ak, some hg, some lo, some lc, some pcv, some pcpv, some pccv, some tov, some x, none, none⟩ : PState))
                >>= fun st => List.foldlM stepEntry st
                  [("time".data, Json.str ti), ("timestamp".data, Json.num ⟨false, printNat ts, none, none⟩)])
              = (dU64 (Json.num ⟨false, printNat ts, none, none⟩)).map
                  (fun x => (⟨some pid, some (some ldd), some ln, some la, some bi, some ak, some hg, some lo, some lc, some pcv, some pcpv, some pccv, some tov, some tn, some ti, some x⟩ : PState))
                >>= fun st => List.foldlM stepEntry st
                  ([] : List (List Char × Json)) from rfl,
            dU64_printNat ts hts]
          rfl

theorem esc3_cons_ne (c : Char) (l : List Char) (h : c ≠ qt) :
    esc3 (c :: l) = c :: esc3 l := by
  rw [esc3, if_neg h]

theorem printSc_chars (v : Json) (hv : wfVal v = true) :
    ∀ c ∈ printSc v, c ≠ cbr ∧ c ≠ bs := by
  cases v with
  | null =>
      intro c hc
      fin_cases hc <;> exact ⟨by decide, by decide⟩
  | jbool b =>
      cases b <;> (intro c hc; fin_cases hc <;> exact ⟨by decide, by decide⟩)
  | arr l => simp [wfVal] at hv
  | obj l => simp [wfVal] at hv
  | str sd =>
      have hs : safeStr sd = true := by simpa [wfVal] using hv
      rw [show printSc (Json.str sd) = printStr sd from rfl, printStr_safe sd hs]
      intro c hc
      simp only [List.mem_cons, List.mem_append, List.not_mem_nil, or_false] at hc
      rcases hc with rfl | hc | rfl
      · exact ⟨by decide, by decide⟩
      · obtain ⟨-, -, hb, hc2⟩ := safeChar_spec c (safeStr_mem sd hs c hc)
        exact ⟨hc2, hb⟩
      · exact ⟨by decide, by decide⟩
  | num n =>
      have hn : wfJNum n = true := by simpa [wfVal] using hv
      obtain ⟨neg, ip, fp, ex⟩ := n
      obtain ⟨-, hipd, -⟩ := wfJNum_ip ⟨neg, ip, fp, ex⟩ hn
      have hdig : ∀ c : Char, c.isDigit = true → c ≠ cbr ∧ c ≠ bs := fun c h =>
        ⟨ne_of_digit c cbr h (by decide), ne_of_digit c bs h (by decide)⟩
      rw [show printSc (Json.num ⟨neg, ip, fp, ex⟩) = printJNum ⟨neg, ip, fp, ex⟩ from rfl,
        printJNum_parts]
      intro c hc
      simp only [List.mem_append] at hc
      rcases hc with ((hc | hc) | hc) | hc
      · cases neg with
        | true =>
            simp only [if_pos] at hc
            fin_cases hc
            exact ⟨by decide, by decide⟩
        | false => simp at hc
      · exact hdig c (hipd c hc)
      · cases fp with
        | none => simp [fpPart] at hc
        | some ds =>
            obtain ⟨-, hds⟩ := wfJNum_fp ⟨neg, ip, some ds, ex⟩ hn ds rfl
            simp only [fpPart, List.mem_cons] at hc
            rcases hc with rfl | hc
            · exact ⟨by decide, by decide⟩
            · exact hdig c (hds c hc)
      · cases ex with
        | none => simp [exPart] at hc
        | some p =>
            obtain ⟨sg, ds⟩ := p
            obtain ⟨-, hds⟩ := wfJNum_ex ⟨neg, ip, fp, some (sg, ds)⟩ hn sg ds rfl
            simp only [exPart, List.mem_cons, List.mem_append] at hc
            rcases hc with rfl | hc | hc
            · exact ⟨by decide, by decide⟩
            · cases sg with
              | true =>
                  simp only [if_pos] at hc
                  fin_cases hc
                  exact ⟨by decide, by decide⟩
              | false => simp at hc
            · exact hdig c (hds c hc)

theorem printEntryList_chars : ∀ (kvs : List (List Char × Json)),
    (∀ kv ∈ kvs, kv.1 ≠ [] ∧ safeStr kv.1 = true ∧ wfVal kv.2 = true) →
    ∀ c ∈ printEntryList kvs, c ≠ cbr ∧ c ≠ bs := by
  intro kvs
  induction kvs with
  | nil =>
      intro _ c hc
      simp [printEntryList] at hc
  | cons kv t ih =>
      obtain ⟨k, v⟩ := kv
      intro hkv c hc
      obtain ⟨-, hks, hv⟩ := hkv (k, v) (List.mem_cons_self _ _)
      have hkey : ∀ c2 ∈ printStr k, c2 ≠ cbr ∧ c2 ≠ bs := by
        rw [printStr_safe k hks]
        intro c2 hc2
        simp only [List.mem_cons, List.mem_append, List.not_mem_nil, or_false] at hc2
        rcases hc2 with rfl | hc2 | rfl
        · exact ⟨by decide, by decide⟩
        · obtain ⟨-, -, hb, hc3⟩ := safeChar_spec c2 (safeStr_mem k hks c2 hc2)
          exact ⟨hc3, hb⟩
        · exact ⟨by decide, by decide⟩
      cases t with
      | nil =>
          rw [show printEntryList [(k, v)] = printStr k ++ ':' :: printSc v from rfl] at hc
          simp only [List.mem_append, List.mem_cons] at hc
          rcases hc with hc | rfl | hc
          · exact hkey c hc
          · exact ⟨by decide, by decide⟩
          · exact printSc_chars v hv c hc
      | cons e2 t2 =>
          rw [show printEntryList ((k, v) :: e2 :: t2)
              = printStr k ++ ':' :: printSc v ++ ',' :: printEntryList (e2 :: t2)
              from rfl] at hc
          simp only [List.mem_append, List.mem_cons] at hc
          rcases hc with (hc | rfl | hc) | rfl | hc
          · exact hkey c hc
          · exact ⟨by decide, by decide⟩
          · exact printSc_chars v hv c hc
          · exact ⟨by decide, by decide⟩
          · exact ih (fun kv2 h2 => hkv kv2 (List.mem_cons_of_mem _ h2)) c hc

theorem jsonDecode_print (s : Snapshot) (hwf : wfSnapshot s = true) :
    jsonDecodeSnapshot (serializeSnap s) = .ok s := by
  simp only [jsonDecodeSnapshot, serializeSnap]
  rw [parseJson_printObj (snapEntries s) (snapEntries_wf s hwf)]
  exact dSnapshot_print s hwf

theorem serializeSnap_no_bs (s : Snapshot) (hwf : wfSnapshot s = true) :
    ∀ c ∈ serializeSnap s, c ≠ bs := by
  intro c hc
  rw [show serializeSnap s = obr :: (printEntryList (snapEntries s) ++ [cbr]) from rfl] at hc
  simp only [List.mem_cons, List.mem_append, List.not_mem_nil, or_false] at hc
  rcases hc with rfl | hc | rfl
  · decide
  · exact (printEntryList_chars (snapEntries s) (snapEntries_wf s hwf) c hc).2
  · decide

theorem esc3_serialize (s : Snapshot) :
    esc3 (serializeSnap s) = obr :: (esc3 (printEntryList (snapEntries s)) ++ [cbr]) := by
  rw [show serializeSnap s = obr :: (printEntryList (snapEntries s) ++ [cbr]) from rfl,
    esc3_cons_ne obr _ (by decide), esc3_append]
  rfl

theorem wire_shape (s : Snapshot) :
    (wireEncode s).data
      = envPre ++ (s.pid.data ++ ':' :: ':' :: obr
          :: (esc3 (printEntryList (snapEntries s)) ++ cbr :: envSuf)) := by
  show envPre ++ s.pid.data ++ ':' :: ':' :: esc3 (serializeSnap s) ++ envSuf = _
  rw [esc3_serialize]
  simp [List.append_assoc, List.cons_append]

theorem from_str_roundtrip (s : Snapshot) (hwf : wfSnapshot s = true) :
    Snapshot.from_str (wireEncode s) = .ok s := by
  have h22 : envPre.length = 22 := by decide
  have hPdig : ∀ c ∈ s.pid.data, c.isDigit = true := by
    obtain ⟨-, h2, -⟩ := wfSnapshot_parts s hwf
    simpa using h2
  have hBc := printEntryList_chars (snapEntries s) (snapEntries_wf s hwf)
  have hEc : ∀ c ∈ esc3 (printEntryList (snapEntries s)), c ≠ cbr :=
    esc3_no_cbr _ (fun c hc => (hBc c hc).1)
  have hi : findIdx delimP (wireEncode s).data = some (s.pid.data.length + 22) := by
    rw [wire_shape, findIdx_delim_envPre, findIdx_delim_digits s.pid.data hPdig _]
    rfl
  have hAc : ∀ c ∈ envPre
      ++ (s.pid.data ++ ':' :: ':' :: obr :: esc3 (printEntryList (snapEntries s))),
      c ≠ cbr := by
    intro c hc
    simp only [List.mem_append, List.mem_cons] at hc
    rcases hc with hc | hc | rfl | rfl | rfl | hc
    · exact (by decide : ∀ c ∈ envPre, c ≠ cbr) c hc
    · exact ne_of_digit c cbr (hPdig c hc) (by decide)
    · decide
    · decide
    · decide
    · exact hEc c hc
  have hshape2 : (wireEncode s).data
      = (envPre ++ (s.pid.data ++ ':' :: ':' :: obr :: esc3 (printEntryList (snapEntries s))))
        ++ cbr :: envSuf := by
    rw [wire_shape]
    simp [List.append_assoc, List.cons_append]
  have hj : findIdx [cbr] (wireEncode s).data
      = some (envPre
          ++ (s.pid.data ++ ':' :: ':' :: obr :: esc3 (printEntryList (snapEntries s)))).length := by
    rw [hshape2]
    exact findIdx_cbr_at _ hAc envSuf
  have hlen : (envPre
      ++ (s.pid.data ++ ':' :: ':' :: obr :: esc3 (printEntryList (snapEntries s)))).length
      = s.pid.data.length + 25 + (esc3 (printEntryList (snapEntries s))).length := by
    simp [List.length_append, List.length_cons, h22]
    omega
  rw [from_str_eval (wireEncode s) _ _ hi hj (by rw [hlen]; omega)]
  have hshape3 : (wireEncode s).data
      = (envPre ++ s.pid.data ++ [':', ':'])
        ++ (obr :: (esc3 (printEntryList (snapEntries s)) ++ cbr :: envSuf)) := by
    rw [wire_shape]
    simp [List.append_assoc, List.cons_append]
  have htake : (esc3 (printEntryList (snapEntries s)) ++ cbr :: envSuf).take
      ((esc3 (printEntryList (snapEntries s))).length + 1)
      = esc3 (printEntryList (snapEntries s)) ++ [cbr] := by
    rw [List.take_append]
    rfl
  have hsub : ((wireEncode s).data.drop (s.pid.data.length + 22 + 2)).take
      ((envPre
        ++ (s.pid.data ++ ':' :: ':' :: obr :: esc3 (printEntryList (snapEntries s)))).length
        + 1 - (s.pid.data.length + 22 + 2))
      = esc3 (serializeSnap s) := by
    rw [hshape3, hlen,
      show s.pid.data.length + 25 + (esc3 (printEntryList (snapEntries s))).length + 1
          - (s.pid.data.length + 22 + 2)
          = (esc3 (printEntryList (snapEntries s))).length + 1 + 1 from by omega,
      show s.pid.data.length + 22 + 2 = (envPre ++ s.pid.data ++ [':', ':']).length from by
        simp [List.length_append, List.length_cons, h22]
        omega,
      List.drop_left, List.take_succ_cons, htake, esc3_serialize]
  rw [hsub, remove3bs_esc3 (serializeSnap s) (serializeSnap_no_bs s hwf),
    jsonDecode_print s hwf]

/-- Claim C4 (amended): for every well-formed Snapshot value (digit instrument
id, string fields free of quotes, backslashes, closing braces and control
characters, canonical numeral, machine-integer bounds), decoding its encoding
into the documented wire envelope returns the original Snapshot, with every
string field byte-exact and every numeric field exact. -/
theorem C4_roundtrip (s : Snapshot) (hwf : wfSnapshot s = true) :
    Snapshot.from_str (wireEncode s) = .ok s :=
  from_str_roundtrip s hwf

set_option maxRecDepth 100000 in
set_option maxHeartbeats 4000000 in
/-- Counterexample to the unrestricted claim C4: a snapshot whose bid field is
a single closing brace encodes into a well-formed envelope, but decoding
panics on a serde_json error instead of returning the snapshot, because the
decoder slices at the first closing brace of the whole wire text. -/
theorem C4_counterexample :
    Snapshot.from_str (wireEncode cexC4) = .panic (.serdeFail .badJson)
      ∧ Snapshot.from_str (wireEncode cexC4) ≠ .ok cexC4 := by
  exact ⟨by decide, by decide⟩

/-- Witness for the amended C4 at the repository's documented snapshot. -/
theorem C4_roundtrip_witness :
    wfSnapshot canonSnap = true ∧ Snapshot.from_str (wireEncode canonSnap) = .ok canonSnap :=
  ⟨by decide, C4_roundtrip canonSnap (by decide)⟩

end Forexpros
